import Mathlib

set_option maxRecDepth 10000

/-!
Shallow embedding of `stuff/i18n_linter.py` (the omegaUp i18n linter).

Strings are modelled as `List Char` (`Str`); file contents fetched through the
`contents_callback` collaborator are modelled as functions `Str → Str`
(the real callback returns bytes which the linter decodes as UTF-8; we work
at the decoded-text level, where Python's strict UTF-8 decode is injective).
Python `dict`s are modelled as insertion-ordered association lists with the
update-in-place semantics of `dict.__setitem__`.  The ASCII fragment of
Python's `\s` / `str.strip` whitespace is modelled (the linter's data is
ASCII-structured); `re` patterns are implemented as the deterministic
scanners their backtracking semantics reduce to on these patterns.
-/

namespace I18nLinter

abbrev Str := List Char

def str (s : String) : Str := s.data

/-- The ASCII whitespace characters matched by Python's `\s` and stripped by
`str.strip()`. -/
def isPySpace (c : Char) : Bool :=
  c = ' ' || c = '\t' || c = '\n' || c = '\r' || c = '\x0b' || c = '\x0c'

/-- Python `str.strip()` (ASCII whitespace fragment). -/
def pyStrip (s : Str) : Str :=
  ((s.dropWhile isPySpace).reverse.dropWhile isPySpace).reverse

/-- Python `content.split('\n')`: split on every newline, keeping empty
segments (so a trailing newline yields a trailing empty segment). -/
def splitOnNl : Str → List Str
  | [] => [[]]
  | c :: rest =>
    if c = '\n' then [] :: splitOnNl rest
    else
      match splitOnNl rest with
      | [] => [[c]]
      | l :: ls => (c :: l) :: ls

/-- The lines the parser iterates over: `content.split(b'\n')[:-1]`. -/
def linesOf (content : Str) : List Str := (splitOnNl content).dropLast

/-- Association-list lookup (Python `d[k]` / `k in d`). -/
def lookupStr (k : Str) : List (Str × α) → Option α
  | [] => none
  | (k0, v) :: rest => if k0 = k then some v else lookupStr k rest

/-- Python `d[k] = v`: overwrite in place if present, else append. -/
def dictSet (k : Str) (v : α) : List (Str × α) → List (Str × α)
  | [] => [(k, v)]
  | (k0, v0) :: rest =>
    if k0 = k then (k0, v) :: rest else (k0, v0) :: dictSet k v rest

/-- A per-key mapping from language code to translated string. -/
abbrev Entry := List (Str × Str)

/-- The translation table: key → (language → value). -/
abbrev Table := List (Str × Entry)

/-- `if key not in strings: strings[key] = collections.defaultdict(str)`. -/
def ensureKey (k : Str) (strings : Table) : Table :=
  if (lookupStr k strings).isSome then strings else strings ++ [(k, [])]

/-- `strings[key][lang] = v` for a `key` already present. -/
def setEntry (k lang v : Str) (strings : Table) : Table :=
  dictSet k (dictSet lang v ((lookupStr k strings).getD [])) strings

/-- `strings[key][lang] = v` on a `defaultdict`-of-`defaultdict` table. -/
def tableSet (k lang v : Str) (strings : Table) : Table :=
  setEntry k lang v (ensureKey k strings)

/-- `strings[key][lang]` where the inner dict is a `defaultdict(str)`:
a missing language yields the empty string. -/
def getVal (strings : Table) (k lang : Str) : Str :=
  match lookupStr k strings with
  | some e => (lookupStr lang e).getD []
  | none => []

/-- `values[l] = values.get(l)` if missing, as performed by `defaultdict`
lookup on the inner dict (`__getitem__` inserts the default). -/
def ensureLang (l : Str) (e : Entry) : Entry :=
  if (lookupStr l e).isSome then e else e ++ [(l, [])]

/-- `s.replace('"', r'\"')` (the escaping used by `_generate_sorted`). -/
def escapeQuote : Str → Str
  | [] => []
  | c :: rest => if c = '"' then '\\' :: '"' :: escapeQuote rest else c :: escapeQuote rest

/-- `s.replace('\\"', '"')`: left-to-right, non-overlapping. -/
def replaceBsQuote : Str → Str
  | [] => []
  | [c] => [c]
  | c :: d :: rest =>
    if c = '\\' ∧ d = '"' then '"' :: replaceBsQuote rest
    else c :: replaceBsQuote (d :: rest)

/-- `s.replace('\\n', '\n')`: left-to-right, non-overlapping. -/
def replaceBsN : Str → Str
  | [] => []
  | [c] => [c]
  | c :: d :: rest =>
    if c = '\\' ∧ d = 'n' then '\n' :: replaceBsN rest
    else c :: replaceBsN (d :: rest)

/-- `_unescape`: `s.replace('\\"', '"').replace('\\n', '\n')`. -/
def pyUnescape (s : Str) : Str := replaceBsN (replaceBsQuote s)

/-- Whether the body of a quoted value matches `(?:[^"]|\\")*`: the
deterministic scan equivalent to the regex's backtracking search (a `"` can
only be consumed together with an immediately preceding `\`). -/
def matchValueBody : Str → Bool
  | [] => true
  | [c] => if c = '"' then false else true
  | c :: d :: rest =>
    if c = '\\' ∧ d = '"' then matchValueBody rest
    else if c = '"' then false
    else matchValueBody (d :: rest)

/-- `re.compile(r'^"((?:[^"]|\\")*)"$').match(value)`, returning the capture
group.  Being anchored on both sides, a match forces the group to be
everything strictly between the first and last character. -/
def matchQuoted (value : Str) : Option Str :=
  match value with
  | '"' :: rest =>
    match rest.reverse with
    | '"' :: revMid =>
      let mid := revMid.reverse
      if matchValueBody mid then some mid else none
    | _ => none
  | _ => none

/-- One scanning step of `re.split(r'\s+=\s+', row, 1)`: at each position,
a match requires a maximal nonempty whitespace run, then `=`, then a
nonempty whitespace run (greedy `\s+` cannot backtrack into a shorter run
here because `=` is not whitespace). Returns `(before, after)` for the
leftmost match. -/
def findSepFrom (pre : Str) : Str → Option (Str × Str)
  | [] => none
  | c :: rest =>
    if isPySpace c then
      match (c :: rest).dropWhile isPySpace with
      | '=' :: r2 =>
        match r2 with
        | c2 :: _ =>
          if isPySpace c2 then some (pre.reverse, r2.dropWhile isPySpace)
          else findSepFrom (c :: pre) rest
        | [] => findSepFrom (c :: pre) rest
      | _ => findSepFrom (c :: pre) rest
    else findSepFrom (c :: pre) rest

/-- `re.compile(r'\s+=\s+').split(row, 1)` as key/value splitter: `none`
models the single-element result that makes the tuple unpacking raise. -/
def findSep (row : Str) : Option (Str × Str) := findSepFrom [] row

/-- The `ValueError` message raised by `key, value = <1-element list>`. -/
def unpackErrMsg : Str := str "not enough values to unpack (expected 2, got 1)"

/-- Python `repr` of a string (printable-ASCII fragment): single quotes
unless the string contains `'` and no `"`; backslash, the quote character
and ASCII control escapes `\n`, `\r`, `\t` are escaped. -/
def pyReprEscQ (q : Char) (c : Char) : Str :=
  if c = '\\' then str "\\\\"
  else if c = q then ['\\', q]
  else if c = '\n' then str "\\n"
  else if c = '\r' then str "\\r"
  else if c = '\t' then str "\\t"
  else [c]

def pyRepr (s : Str) : Str :=
  let q : Char := if s.contains '\'' && !(s.contains '"') then '"' else '\''
  q :: (s.map (pyReprEscQ q)).flatten ++ [q]

/-- The successful parse of one source line, if any: strip, split on the
first whitespace-padded `=`, match the quoted-value pattern, unescape
`\"`.  Mirrors the non-raising path of the parser's per-line `try` body. -/
def parseLineKV (line : Str) : Option (Str × Str) :=
  match findSep (pyStrip line) with
  | none => none
  | some kv => (matchQuoted kv.2).map (fun mid => (kv.1, replaceBsQuote mid))

/-- `linters.Diagnostic` (a data carrier from the external `hook_tools`
dependency): message, source file, optional line number, optional line. -/
structure Diagnostic where
  message : Str
  filename : Str
  lineno : Option Nat
  line : Option Str
deriving DecidableEq

/-- `linters.LinterException`: aggregate failure carrying diagnostics;
`fixable` defaults to `true` when not passed. -/
structure LinterException where
  message : Str
  fixable : Bool
  diagnostics : List Diagnostic
deriving DecidableEq

/-- The body of the parser's per-line loop (`_get_translated_strings`,
lines 127–143): on the success path the key is ensured then assigned; on
either failure a diagnostic is appended and the loop continues.  Note the
key is ensured (with an empty entry) even when the value pattern fails,
exactly as in the source where `strings[key] = defaultdict(str)` precedes
the value match. -/
def processLine (lang filename : Str) (strings : Table) (diags : List Diagnostic)
    (idx : Nat) (line : Str) : Table × List Diagnostic :=
  let row := pyStrip line
  match findSep row with
  | none => (strings, diags ++ [⟨unpackErrMsg, filename, some (idx + 1), some row⟩])
  | some kv =>
    let strings1 := ensureKey kv.1 strings
    match matchQuoted kv.2 with
    | none =>
      (strings1,
       diags ++ [⟨str "Invalid line " ++ pyRepr row, filename, some (idx + 1), some row⟩])
    | some mid => (setEntry kv.1 lang (replaceBsQuote mid) strings1, diags)

-- Paths and language constants of the linter.
def templatesPath : Str := str "frontend/templates"
def jsTemplatesPath : Str := str "frontend/www/js/omegaup"
def LANGS : List Str := [str "en", str "es", str "pt"]
def pseudoLang : Str := str "pseudo"

/-- `'%s/%s.lang' % (_TEMPLATES_PATH, lang)` (also `os.path.join` with the
same components). -/
def langFilePath (lang : Str) : Str := templatesPath ++ '/' :: lang ++ str ".lang"

def tsFilePath (lang : Str) : Str := jsTemplatesPath ++ str "/lang." ++ lang ++ str ".ts"

def jsonFilePath (lang : Str) : Str := jsTemplatesPath ++ str "/lang." ++ lang ++ str ".json"

/-- The per-language-file parsing loop: enumerate the lines of `content`
and run `processLine` over them, threading table and diagnostics. -/
def parseFold (lang : Str) (acc : Table × List Diagnostic) (content : Str) :
    Table × List Diagnostic :=
  (linesOf content).enum.foldl
    (fun a p => processLine lang (langFilePath lang) a.1 a.2 p.1 p.2) acc

/-- `_get_translated_strings`: parse the three language files, raise the
aggregate non-fixable error if any diagnostics were collected, otherwise
return the table with `badge_`-prefixed keys filtered out. -/
def getTranslatedStrings (cb : Str → Str) : Except LinterException Table :=
  let r := LANGS.foldl (fun a lang => parseFold lang a (cb (langFilePath lang))) ([], [])
  if r.2.isEmpty then
    Except.ok (r.1.filter (fun p => !(List.isPrefixOf (str "badge_") p.1)))
  else
    Except.error ⟨str "Invalid i18n files", false, r.2⟩

-- Pseudolocalization (`_pseudoloc`).

/-- The identifier characters of the placeholder pattern `[a-zA-Z0-9_-]`. -/
def isIdentChar (c : Char) : Bool := c.isAlpha || c.isDigit || c = '_' || c = '-'

/-- `str.maketrans('elsot', '31507')` as a character map. -/
def translChar (c : Char) : Char :=
  if c = 'e' then '3'
  else if c = 'l' then '1'
  else if c = 's' then '5'
  else if c = 'o' then '0'
  else if c = 't' then '7'
  else c

/-- `re.split(r'(%\([a-zA-Z0-9_-]+\))', original)`: scan left to right; at
each position a delimiter match is `%(`, a maximal nonempty identifier run,
then `)` (greedy `+` cannot end the run early since `)` is not an
identifier character); delimiters are kept as their own segments.  The
structural fuel counter only bounds the number of scanning steps, each of
which consumes at least one character, so `length + 1` fuel is never
exhausted. -/
def pseudoSplitGo (fuel : Nat) (acc : Str) (l : Str) : List Str :=
  match fuel, l with
  | 0, l => [acc.reverse ++ l]
  | _ + 1, [] => [acc.reverse]
  | fuel + 1, '%' :: '(' :: rest =>
    match rest.takeWhile isIdentChar, rest.dropWhile isIdentChar with
    | _ :: _, ')' :: rest3 =>
      acc.reverse :: ('%' :: '(' :: (rest.takeWhile isIdentChar ++ [')'])) ::
        pseudoSplitGo fuel [] rest3
    | _, _ => pseudoSplitGo fuel ('%' :: acc) ('(' :: rest)
  | fuel + 1, c :: rest => pseudoSplitGo fuel (c :: acc) rest

def pseudoSplit (original : Str) : List Str :=
  pseudoSplitGo (original.length + 1) [] original

/-- `_pseudoloc`: split on placeholder tokens, leave alone every segment
that starts with `%(` and ends with `)`, apply the character table to the
others, re-join and wrap in parentheses. -/
def pseudoloc (original : Str) : Str :=
  '(' ::
    (((pseudoSplit original).map
        (fun t =>
          if (str "%(").isPrefixOf t && (str ")").isSuffixOf t then t
          else t.map translChar)).flatten
      ++ [')'])

-- Consistency checker (`_check_missing_entries`).

/-- `languages.difference(values.keys())`, linearised in `languages` order
(Python iterates the resulting set in unspecified order). -/
def missingLangs (languages : List Str) (values : Entry) : List Str :=
  languages.filter (fun l => (lookupStr l values).isNone)

/-- The diagnostic emitted for one missing language of one key. -/
def mkMissingDiag (key lang : Str) : Diagnostic :=
  ⟨str "Missing entry: " ++ pyRepr key, langFilePath lang, none, none⟩

/-- The mutation applied to a fully-covered key's entry:
`values['pseudo'] = 'pseudo'` for the key `locale`, otherwise
`values['pseudo'] = _pseudoloc(values['en'])` (the `defaultdict` read of
`'en'` inserts the default if absent). -/
def setPseudoEntry (key : Str) (values : Entry) : Entry :=
  if key = str "locale" then dictSet pseudoLang (str "pseudo") values
  else
    let enVal := (lookupStr (str "en") values).getD []
    dictSet pseudoLang (pseudoloc enVal) (ensureLang (str "en") values)

/-- `_check_missing_entries`' loop: returns the mutated table and the
collected diagnostics. -/
def checkMissingEntries (strings : Table) (languages : List Str) :
    Table × List Diagnostic :=
  strings.foldl
    (fun acc p =>
      let missing := missingLangs languages p.2
      if missing.isEmpty then (acc.1 ++ [(p.1, setPseudoEntry p.1 p.2)], acc.2)
      else (acc.1 ++ [(p.1, p.2)], acc.2 ++ missing.map (fun lang => mkMissingDiag p.1 lang)))
    ([], [])

/-- `_check_missing_entries` with its terminal raise: errors out with the
aggregate missing-items exception when any diagnostics were collected. -/
def runCheckMissing (strings : Table) (languages : List Str) :
    Except LinterException Table :=
  let r := checkMissingEntries strings languages
  if r.2.isEmpty then Except.ok r.1
  else Except.error ⟨str "There are missing items in some files", true, r.2⟩

-- Multi-format emitter.

/-- String comparison by code point, as used by Python `sorted` on `str`. -/
def strLe : Str → Str → Bool
  | [], _ => true
  | _ :: _, [] => false
  | a :: as, b :: bs =>
    if a.toNat < b.toNat then true
    else if b.toNat < a.toNat then false
    else strLe as bs

def insertLe (le : α → α → Bool) (x : α) : List α → List α
  | [] => [x]
  | y :: ys => if le x y then x :: y :: ys else y :: insertLe le x ys

/-- Insertion sort (ascending); models Python `sorted`. -/
def insSort (le : α → α → Bool) : List α → List α
  | [] => []
  | x :: xs => insertLe le x (insSort le xs)

/-- `sorted(strings.keys())`. -/
def sortKeys (strings : Table) : List Str := insSort strLe (strings.map Prod.fst)

/-- `_generate_sorted`: one `key = "value"` line (quotes escaped) per key in
sorted order, each terminated by a newline. -/
def generateSorted (lang : Str) (strings : Table) : Str :=
  ((sortKeys strings).map
      (fun k => k ++ str " = " ++ ('"' :: escapeQuote (getVal strings k lang)) ++ str "\"\n")).flatten

-- Python `json.dumps` for string-to-string dicts (`ensure_ascii=True`).

def toHexDigit (n : Nat) : Char :=
  if n < 10 then Char.ofNat (48 + n) else Char.ofNat (87 + n)

def toHex4 (n : Nat) : Str :=
  [toHexDigit (n / 4096 % 16), toHexDigit (n / 256 % 16), toHexDigit (n / 16 % 16),
   toHexDigit (n % 16)]

/-- JSON string-encoding of one character, as CPython's
`json.encoder.py_encode_basestring_ascii` does it: `"` and `\` escaped, the
five short control escapes, `\uXXXX` for every other character outside
`0x20`–`0x7e`, surrogate pairs above `0xffff`. -/
def jsonEncChar (c : Char) : Str :=
  if c = '"' then str "\\\""
  else if c = '\\' then str "\\\\"
  else if c = '\n' then str "\\n"
  else if c = '\t' then str "\\t"
  else if c = '\r' then str "\\r"
  else if c = '\x08' then str "\\b"
  else if c = '\x0c' then str "\\f"
  else if c.toNat < 0x20 || c.toNat > 0x7e then
    if c.toNat ≤ 0xffff then '\\' :: 'u' :: toHex4 c.toNat
    else
      let n := c.toNat - 0x10000
      ('\\' :: 'u' :: toHex4 (0xd800 + n / 0x400)) ++ ('\\' :: 'u' :: toHex4 (0xdc00 + n % 0x400))
  else [c]

def jsonEncodeStr (s : Str) : Str := '"' :: (s.map jsonEncChar).flatten ++ ['"']

def sortPairs (ps : List (Str × Str)) : List (Str × Str) :=
  insSort (fun p q => strLe p.1 q.1) ps

/-- `json.dumps(d, sort_keys=True, indent='\t')` for a `str → str` dict. -/
def pyJsonDumps (entries : List (Str × Str)) : Str :=
  match sortPairs entries with
  | [] => str "\x7b\x7d"
  | ps =>
    str "\x7b\n\t" ++
      List.intercalate (str ",\n\t")
        (ps.map (fun p => jsonEncodeStr p.1 ++ str ": " ++ jsonEncodeStr p.2)) ++
      str "\n\x7d"

/-- `_generate_json`: build the key → unescaped-value dict over sorted keys,
then dump it (sorted, tab-indented). -/
def generateJson (lang : Str) (strings : Table) : Str :=
  pyJsonDumps
    ((sortKeys strings).foldl (fun m k => dictSet k (pyUnescape (getVal strings k lang)) m) [])

/-- `_generate_typescript`: banner, mapping literal with one
`key: <JSON-encoded unescaped value>,` line per sorted key, default export;
lines joined by `\n`. -/
def generateTypescript (lang : Str) (strings : Table) : Str :=
  List.intercalate (str "\n")
    ([str "// generated by stuff/i18n.py. DO NOT EDIT.",
      str "const translations: \x7b [key: string]: string; \x7d = \x7b"] ++
     (sortKeys strings).map
       (fun k => str "  " ++ k ++ str ": " ++ jsonEncodeStr (pyUnescape (getVal strings k lang)) ++ str ",") ++
     [str "\x7d;\n", str "export \x7btranslations as default\x7d;"])

-- Auxiliary merger (`_add_badges_entries`).

def badgeNameKey (al : Str) : Str := str "badge_" ++ al ++ str "_name"

def badgeDescKey (al : Str) : Str := str "badge_" ++ al ++ str "_description"

/-- `_add_badges_entries`: directory enumeration and JSON decoding are
external collaborators, so the per-item localisations arrive as
`badgeData alias lang = (name, description)`.  For each alias, for each
required language, the name key is set and then the description key. -/
def addBadgesEntries (aliases : List Str) (badgeData : Str → Str → Str × Str) : Table :=
  aliases.foldl
    (fun strings al =>
      LANGS.foldl
        (fun s lang =>
          tableSet (badgeDescKey al) lang (badgeData al lang).2
            (tableSet (badgeNameKey al) lang (badgeData al lang).1 s))
        strings)
    []

/-- Python `dict.update`: fold the overriding dict's items (in insertion
order) into the base dict. -/
def tableUpdate (base overrides : Table) : Table :=
  overrides.foldl (fun acc p => dictSet p.1 p.2 acc) base

-- Drift detector.

/-- `linters.MultipleResults` as constructed by `run_all`: the new-contents
map, the original-contents map, and the fixed label list. -/
structure MultipleResults where
  newContents : List (Str × Str)
  originalContents : List (Str × Str)
  messages : List Str
deriving DecidableEq

/-- `_generate_content_entry`: fetch the on-disk content, record both maps
when it differs from the fresh rendering, do nothing when equal. -/
def generateContentEntry (cb : Str → Str) (acc : List (Str × Str) × List (Str × Str))
    (path newContent : Str) : List (Str × Str) × List (Str × Str) :=
  let originalContent := cb path
  if originalContent ≠ newContent then
    (dictSet path newContent acc.1, dictSet path originalContent acc.2)
  else acc

/-- `_generate_new_contents`: for each required language plus the diagnostic
language, compare the sorted, TypeScript and JSON renderings with the
on-disk artifacts. -/
def generateNewContents (strings : Table) (cb : Str → Str) :
    List (Str × Str) × List (Str × Str) :=
  (LANGS ++ [pseudoLang]).foldl
    (fun acc language =>
      let acc1 := generateContentEntry cb acc (langFilePath language) (generateSorted language strings)
      let acc2 := generateContentEntry cb acc1 (tsFilePath language) (generateTypescript language strings)
      generateContentEntry cb acc2 (jsonFilePath language) (generateJson language strings))
    ([], [])

/-- `run_all`: parse, merge badges, check (which mutates the table), then
generate and diff, returning the two maps and the `['i18n']` label. -/
def runAll (cb : Str → Str) (aliases : List Str) (badgeData : Str → Str → Str × Str) :
    Except LinterException MultipleResults :=
  match getTranslatedStrings cb with
  | Except.error e => Except.error e
  | Except.ok strings0 =>
    let strings := tableUpdate strings0 (addBadgesEntries aliases badgeData)
    match runCheckMissing strings LANGS with
    | Except.error e => Except.error e
    | Except.ok strings2 =>
      let nc := generateNewContents strings2 cb
      Except.ok ⟨nc.1, nc.2, [str "i18n"]⟩

-- Definitions taken from the specification's wording (for the refinement
-- claims, to be compared with the code-derived definitions above).

/-- Whether a segment matches the placeholder token pattern
`%\([a-zA-Z0-9_-]+\)` exactly (the condition the spec states for leaving a
segment unchanged). -/
def isPlaceholderToken (t : Str) : Bool :=
  match t with
  | '%' :: '(' :: rest =>
    match rest.reverse with
    | ')' :: revMid =>
      let mid := revMid.reverse
      !mid.isEmpty && mid.all isIdentChar
    | _ => false
  | _ => false

/-- The pseudolocalization transform as the spec words it: segments that
match the placeholder token pattern exactly are left unchanged, all other
segments have the character substitution applied, and the concatenation is
wrapped in parentheses. -/
def pseudolocSpec (original : Str) : Str :=
  '(' ::
    (((pseudoSplit original).map
        (fun t => if isPlaceholderToken t then t else t.map translChar)).flatten
      ++ [')'])

/-- Whether a segment's first two characters are `%(` and its last
character is `)` (the amended skip condition). -/
def startsEndsPlaceholder (t : Str) : Bool :=
  t.take 2 == str "%(" && t.getLast? == some ')'

/-- The pseudolocalization transform with the amended skip condition:
segments that start with `%(` and end with `)` are left unchanged. -/
def pseudolocAmended (original : Str) : Str :=
  '(' ::
    (((pseudoSplit original).map
        (fun t => if startsEndsPlaceholder t then t else t.map translChar)).flatten
      ++ [')'])

/-- The structured-map emission as the spec words it: a single JSON object
mapping each (sorted) key to its unescaped value for the language,
serialized with tab indentation. -/
def jsonSpecRender (lang : Str) (strings : Table) : Str :=
  pyJsonDumps ((sortKeys strings).map (fun k => (k, pyUnescape (getVal strings k lang))))

/-- The (path, rendering) pairs produced by the emitter, in emission
order: three formats for each required language and for the diagnostic
language. -/
def renderList (strings : Table) : List (Str × Str) :=
  ((LANGS ++ [pseudoLang]).map
      (fun l =>
        [(langFilePath l, generateSorted l strings),
         (tsFilePath l, generateTypescript l strings),
         (jsonFilePath l, generateJson l strings)])).flatten

-- Predicates used to state the claims.

/-- A key whose rendering survives the parser's strip/split unchanged:
nonempty, no (ASCII) whitespace characters. -/
def goodKey (k : Str) : Bool := !k.isEmpty && k.all (fun c => !isPySpace c)

def hasNoNewline (s : Str) : Bool := s.all (fun c => c ≠ '\n')

/-- The diagnostic that `processLine` emits for a line, if any (`none` for
lines that parse). -/
def lineDiag (filename : Str) (idx : Nat) (line : Str) : Option Diagnostic :=
  let row := pyStrip line
  match findSep row with
  | none => some ⟨unpackErrMsg, filename, some (idx + 1), some row⟩
  | some kv =>
    if (matchQuoted kv.2).isNone then
      some ⟨str "Invalid line " ++ pyRepr row, filename, some (idx + 1), some row⟩
    else none

/-- The value of the last well-formed occurrence of key `k` among the lines
of `content`, if any. -/
def lastValueOf (k : Str) (content : Str) : Option Str :=
  (linesOf content).reverse.findSome?
    (fun line =>
      match parseLineKV line with
      | some kv => if kv.1 = k then some kv.2 else none
      | none => none)

/-- The body (without the terminating newline) of the sorted-format line
for key `k` and stored value `v`. -/
def lineBody (k v : Str) : Str :=
  k ++ ' ' :: '=' :: ' ' :: '"' :: (escapeQuote v ++ ['"'])

/-- The diagnostics the parser collects over one language file. -/
def diagsOfContent (lang : Str) (content : Str) : List Diagnostic :=
  (linesOf content).enum.filterMap (fun p => lineDiag (langFilePath lang) p.1 p.2)

/-- The stored value of key `k` for language `lang`, as an `Option`
(`none` when the key or the language entry is absent). -/
def optLookup (k lang : Str) (t : Table) : Option Str :=
  (lookupStr k t).bind (fun e => lookupStr lang e)

/-- A concrete content callback whose language files hold a single
`locale` key and whose artifact paths already hold exactly the renderings
the pipeline generates from them, so a run detects no drift. -/
def driftFreeCb (p : Str) : Str :=
  if p = langFilePath pseudoLang then str "locale = \"pseudo\"\n"
  else if p = langFilePath (str "en") || p = langFilePath (str "es")
      || p = langFilePath (str "pt") then str "locale = \"x\"\n"
  else if p = tsFilePath pseudoLang then
    str "// generated by stuff/i18n.py. DO NOT EDIT.\nconst translations: \x7b [key: string]: string; \x7d = \x7b\n  locale: \"pseudo\",\n\x7d;\n\nexport \x7btranslations as default\x7d;"
  else if p = tsFilePath (str "en") || p = tsFilePath (str "es")
      || p = tsFilePath (str "pt") then
    str "// generated by stuff/i18n.py. DO NOT EDIT.\nconst translations: \x7b [key: string]: string; \x7d = \x7b\n  locale: \"x\",\n\x7d;\n\nexport \x7btranslations as default\x7d;"
  else if p = jsonFilePath pseudoLang then str "\x7b\n\t\"locale\": \"pseudo\"\n\x7d"
  else str "\x7b\n\t\"locale\": \"x\"\n\x7d"

/-! ### Generic lemmas about the dict model -/

theorem lookupStr_dictSet_self (k : Str) (v : α) (l : List (Str × α)) :
    lookupStr k (dictSet k v l) = some v := by
  induction l with
  | nil => simp [dictSet, lookupStr]
  | cons p rest ih =>
    by_cases h : p.1 = k
    · simp [dictSet, h, lookupStr]
    · simp [dictSet, h, lookupStr, ih]

theorem lookupStr_dictSet_ne (k k' : Str) (v : α) (l : List (Str × α)) (h : k' ≠ k) :
    lookupStr k' (dictSet k v l) = lookupStr k' l := by
  have hkk : ¬ (k = k') := fun h' => h h'.symm
  induction l with
  | nil => simp [dictSet, lookupStr, hkk]
  | cons p rest ih =>
    by_cases hp : p.1 = k
    · simp only [dictSet, hp, if_pos rfl]
      simp [lookupStr, hp, hkk]
    · simp [dictSet, hp, lookupStr, ih]

theorem lookupStr_append_none (k : Str) (l1 l2 : List (Str × α))
    (h : lookupStr k l1 = none) :
    lookupStr k (l1 ++ l2) = lookupStr k l2 := by
  induction l1 with
  | nil => simp
  | cons p rest ih =>
    by_cases hp : p.1 = k
    · simp [lookupStr, hp] at h
    · simp [lookupStr, hp] at h ⊢
      exact ih h

theorem lookupStr_append_some (k : Str) (l1 l2 : List (Str × α)) (v : α)
    (h : lookupStr k l1 = some v) :
    lookupStr k (l1 ++ l2) = some v := by
  induction l1 with
  | nil => simp [lookupStr] at h
  | cons p rest ih =>
    by_cases hp : p.1 = k
    · simp [lookupStr, hp] at h ⊢; exact h
    · simp [lookupStr, hp] at h ⊢
      exact ih h

theorem dictSet_fresh (k : Str) (v : α) (l : List (Str × α))
    (h : lookupStr k l = none) :
    dictSet k v l = l ++ [(k, v)] := by
  induction l with
  | nil => simp [dictSet]
  | cons p rest ih =>
    by_cases hp : p.1 = k
    · simp [lookupStr, hp] at h
    · simp [lookupStr, hp] at h
      simp [dictSet, hp, ih h]

theorem dictSet_append_mid (k : Str) (v : α) (l t : List (Str × α)) (e : α)
    (h : lookupStr k l = none) :
    dictSet k v (l ++ (k, e) :: t) = l ++ (k, v) :: t := by
  induction l with
  | nil => simp [dictSet]
  | cons p rest ih =>
    by_cases hp : p.1 = k
    · simp [lookupStr, hp] at h
    · simp [lookupStr, hp] at h
      simp [dictSet, hp, ih h]

theorem lookupStr_isSome_dictSet (k a : Str) (v : α) (l : List (Str × α))
    (h : (lookupStr a l).isSome) :
    (lookupStr a (dictSet k v l)).isSome := by
  by_cases hak : a = k
  · subst hak; simp [lookupStr_dictSet_self]
  · rwa [lookupStr_dictSet_ne _ _ _ _ hak]

theorem lookupStr_mem (k : Str) (v : α) (l : List (Str × α))
    (h : lookupStr k l = some v) : (k, v) ∈ l := by
  induction l with
  | nil => simp [lookupStr] at h
  | cons p rest ih =>
    cases p with
    | mk a b =>
      by_cases hp : a = k
      · subst hp
        simp [lookupStr] at h
        subst h
        exact List.mem_cons_self _ _
      · simp [lookupStr, hp] at h
        exact List.mem_cons_of_mem _ (ih h)

theorem lookupStr_isSome_of_mem_keys (k : Str) (l : List (Str × α))
    (h : k ∈ l.map Prod.fst) : (lookupStr k l).isSome := by
  induction l with
  | nil => simp at h
  | cons p rest ih =>
    cases p with
    | mk a b =>
      by_cases hp : a = k
      · simp [lookupStr, hp]
      · have h' : k ∈ rest.map Prod.fst := by
          rcases List.mem_cons.mp h with h0 | h0
          · exact absurd h0.symm hp
          · exact h0
        simp only [lookupStr, hp, if_false]
        exact ih h'

theorem tableSet_fresh (k lang v : Str) (strings : Table)
    (h : lookupStr k strings = none) :
    tableSet k lang v strings = strings ++ [(k, [(lang, v)])] := by
  unfold tableSet ensureKey setEntry
  rw [h]
  simp only [Option.isSome_none, Bool.false_eq_true, if_false]
  rw [lookupStr_append_none _ _ _ h]
  simp [lookupStr, dictSet, dictSet_append_mid _ _ _ _ _ h]

/-! ### Permutation facts about the insertion sort -/

theorem insertLe_perm (le : α → α → Bool) (x : α) (l : List α) :
    List.Perm (insertLe le x l) (x :: l) := by
  induction l with
  | nil => exact List.Perm.refl _
  | cons y ys ih =>
    by_cases h : le x y = true
    · simp only [insertLe, if_pos h]
      exact List.Perm.refl _
    · simp only [insertLe, if_neg h]
      exact (List.Perm.cons y ih).trans (List.Perm.swap x y ys)

theorem insSort_perm (le : α → α → Bool) (l : List α) :
    List.Perm (insSort le l) l := by
  induction l with
  | nil => exact List.Perm.refl _
  | cons x xs ih =>
    exact (insertLe_perm le x (insSort le xs)).trans (List.Perm.cons x ih)

theorem sortKeys_perm (strings : Table) :
    List.Perm (sortKeys strings) (strings.map Prod.fst) :=
  insSort_perm _ _

/-! ### Claim C1: the pseudolocalization skip condition -/

theorem skipCond_eq_startsEnds (t : Str) :
    ((str "%(").isPrefixOf t && (str ")").isSuffixOf t) = startsEndsPlaceholder t := by
  have h1 : str "%(" = ['%', '('] := rfl
  have h2 : str ")" = [')'] := rfl
  rw [Bool.eq_iff_iff]
  simp only [startsEndsPlaceholder, Bool.and_eq_true, List.isPrefixOf_iff_prefix,
    List.isSuffixOf_iff_suffix, beq_iff_eq, h1, h2]
  constructor
  · rintro ⟨hp, hs⟩
    refine ⟨?_, ?_⟩
    · rw [List.prefix_iff_eq_take] at hp
      exact hp.symm
    · obtain ⟨s, rfl⟩ := hs
      exact List.getLast?_concat s
  · rintro ⟨hp, hs⟩
    refine ⟨?_, ?_⟩
    · rw [List.prefix_iff_eq_take]
      exact hp.symm
    · rw [List.getLast?_eq_some_iff] at hs
      obtain ⟨ys, rfl⟩ := hs
      exact ⟨ys, rfl⟩

/-- Claim C1 (counterexample): the transform does not apply the
substitution to the segment `%(he llo)`, which starts with `%(` and ends
with `)` but does not match the placeholder token pattern exactly; the
spec-worded transform substitutes inside it. -/
theorem claim_C1_counterexample :
    pseudoloc (str "%(he llo)") ≠ pseudolocSpec (str "%(he llo)") ∧
    pseudoloc (str "%(he llo)") = str "(%(he llo))" ∧
    pseudolocSpec (str "%(he llo)") = str "(%(h3 110))" := by
  refine ⟨?_, ?_, ?_⟩ <;> decide

/-- Claim C1 (amended): the transform splits on the placeholder token
pattern retaining delimiters, leaves unchanged every segment that starts
with `%(` and ends with `)` (not only those matching the pattern exactly),
applies the `elsot → 31507` substitution to every character of every other
segment, and wraps the concatenation in one pair of parentheses. -/
theorem claim_C1_amended (original : Str) :
    pseudoloc original = pseudolocAmended original := by
  unfold pseudoloc pseudolocAmended
  have h : ∀ t ∈ pseudoSplit original,
      (if (str "%(").isPrefixOf t && (str ")").isSuffixOf t then t
       else t.map translChar)
        = (if startsEndsPlaceholder t then t else t.map translChar) := by
    intro t _
    rw [skipCond_eq_startsEnds]
  rw [List.map_congr_left h]

/-! ### The consistency checker's loop -/

theorem checkFold_aux (languages : List Str) (strings : Table)
    (acc : Table × List Diagnostic) :
    strings.foldl
      (fun acc p =>
        let missing := missingLangs languages p.2
        if missing.isEmpty then (acc.1 ++ [(p.1, setPseudoEntry p.1 p.2)], acc.2)
        else (acc.1 ++ [(p.1, p.2)], acc.2 ++ missing.map (fun lang => mkMissingDiag p.1 lang)))
      acc
    = (acc.1 ++ strings.map
          (fun p => (p.1, if (missingLangs languages p.2).isEmpty then setPseudoEntry p.1 p.2 else p.2)),
       acc.2 ++ (strings.map
          (fun p => (missingLangs languages p.2).map (fun lang => mkMissingDiag p.1 lang))).flatten) := by
  induction strings generalizing acc with
  | nil => simp
  | cons p rest ih =>
    rw [List.foldl_cons]
    by_cases h : (missingLangs languages p.2).isEmpty
    · simp only [h, if_true, if_pos]
      rw [ih]
      have hm : missingLangs languages p.2 = [] := List.isEmpty_iff.mp h
      simp [hm, h, List.append_assoc]
    · simp only [h, if_false, if_neg]
      rw [ih]
      have hm : missingLangs languages p.2 ≠ [] := by
        intro hnil
        rw [hnil] at h
        exact h rfl
      simp [h, hm, List.append_assoc]

theorem checkMissingEntries_eq (strings : Table) (languages : List Str) :
    checkMissingEntries strings languages
      = (strings.map
          (fun p => (p.1, if (missingLangs languages p.2).isEmpty then setPseudoEntry p.1 p.2 else p.2)),
         (strings.map
          (fun p => (missingLangs languages p.2).map (fun lang => mkMissingDiag p.1 lang))).flatten) := by
  have h := checkFold_aux languages strings ([], [])
  simp only [List.nil_append] at h
  exact h

theorem missingLangs_isEmpty_iff (languages : List Str) (e : Entry) :
    (missingLangs languages e).isEmpty = true ↔
      ∀ l ∈ languages, (lookupStr l e).isSome := by
  rw [List.isEmpty_iff]
  unfold missingLangs
  rw [List.filter_eq_nil_iff]
  constructor
  · intro h l hl
    have := h l hl
    simpa [Option.isNone_iff_eq_none, Option.isSome_iff_ne_none] using this
  · intro h l hl
    simpa [Option.isNone_iff_eq_none, Option.isSome_iff_ne_none] using h l hl

theorem lookupStr_ensureLang_isSome (l l' : Str) (e : Entry)
    (h : (lookupStr l e).isSome) : (lookupStr l (ensureLang l' e)).isSome := by
  unfold ensureLang
  by_cases he : (lookupStr l' e).isSome = true
  · rw [if_pos he]
    exact h
  · rw [if_neg he]
    obtain ⟨v, hv⟩ := Option.isSome_iff_exists.mp h
    rw [lookupStr_append_some _ _ _ _ hv]
    rfl

theorem lookupStr_setPseudoEntry_isSome (key l : Str) (values : Entry)
    (h : (lookupStr l values).isSome) :
    (lookupStr l (setPseudoEntry key values)).isSome := by
  unfold setPseudoEntry
  by_cases hk : key = str "locale"
  · rw [if_pos hk]
    exact lookupStr_isSome_dictSet _ _ _ _ h
  · rw [if_neg hk]
    exact lookupStr_isSome_dictSet _ _ _ _ (lookupStr_ensureLang_isSome _ _ _ h)

theorem lookupStr_pseudo_setPseudoEntry (key : Str) (values : Entry) :
    (lookupStr pseudoLang (setPseudoEntry key values)).isSome := by
  unfold setPseudoEntry
  by_cases hk : key = str "locale"
  · rw [if_pos hk, lookupStr_dictSet_self]
    rfl
  · rw [if_neg hk, lookupStr_dictSet_self]
    rfl

/-- Claim C2: if the consistency checker completes without raising (no
diagnostics), every key of the resulting table has an entry for each of
`en`, `es`, `pt` and for the diagnostic language `pseudo`. -/
theorem claim_C2 (tbl tbl' : Table) (diags : List Diagnostic)
    (h : checkMissingEntries tbl LANGS = (tbl', diags)) (hd : diags = []) :
    ∀ p ∈ tbl', ∀ L ∈ LANGS ++ [pseudoLang], (lookupStr L p.2).isSome := by
  subst hd
  rw [checkMissingEntries_eq] at h
  have h1 : tbl' = tbl.map
      (fun p => (p.1, if (missingLangs LANGS p.2).isEmpty then setPseudoEntry p.1 p.2 else p.2)) :=
    (congrArg Prod.fst h).symm
  have h2 : (tbl.map
      (fun p => (missingLangs LANGS p.2).map (fun lang => mkMissingDiag p.1 lang))).flatten = [] :=
    congrArg Prod.snd h
  intro p hp L hL
  rw [h1] at hp
  obtain ⟨q, hq, rfl⟩ := List.mem_map.mp hp
  have hqe : (missingLangs LANGS q.2).isEmpty = true := by
    by_contra hne
    have : (missingLangs LANGS q.2).map (fun lang => mkMissingDiag q.1 lang) = [] := by
      have := List.flatten_eq_nil_iff.mp h2
      exact this _ (List.mem_map_of_mem _ hq)
    rw [List.map_eq_nil_iff] at this
    rw [this] at hne
    exact hne rfl
  simp only [hqe, if_true]
  rcases List.mem_append.mp hL with hL | hL
  · exact lookupStr_setPseudoEntry_isSome _ _ _
      ((missingLangs_isEmpty_iff _ _).mp hqe L hL)
  · have : L = pseudoLang := by simpa using hL
    subst this
    exact lookupStr_pseudo_setPseudoEntry _ _

/-- Witness for claim C2 at a concrete table, key and language. -/
theorem claim_C2_witness :
    (lookupStr pseudoLang
      [(str "en", str "x"), (str "es", str "y"), (str "pt", str "z"),
       (str "pseudo", str "pseudo")]).isSome :=
  claim_C2 [(str "locale", [(str "en", str "x"), (str "es", str "y"), (str "pt", str "z")])]
    [(str "locale",
      [(str "en", str "x"), (str "es", str "y"), (str "pt", str "z"),
       (str "pseudo", str "pseudo")])]
    [] (by decide) rfl
    (str "locale",
      [(str "en", str "x"), (str "es", str "y"), (str "pt", str "z"),
       (str "pseudo", str "pseudo")])
    (by decide) pseudoLang (by decide)

/-- Claim C5: for a key missing at least one required language, the checker
leaves the key's entry unchanged (no `pseudo` entry is added), emits
exactly one diagnostic per missing language — message `Missing entry:
<key repr>`, file the missing language's canonical source path — and, the
diagnostics being nonempty, raises the aggregate missing-items error
carrying all collected diagnostics. -/
theorem claim_C5 (tbl : Table) (k : Str) (e : Entry)
    (hmem : (k, e) ∈ tbl) (hmiss : missingLangs LANGS e ≠ []) :
    (k, e) ∈ (checkMissingEntries tbl LANGS).1 ∧
    (∃ pre post,
        (checkMissingEntries tbl LANGS).2
          = pre ++ (missingLangs LANGS e).map (fun lang => mkMissingDiag k lang) ++ post) ∧
    (∀ lang, mkMissingDiag k lang
        = ⟨str "Missing entry: " ++ pyRepr k, langFilePath lang, none, none⟩) ∧
    runCheckMissing tbl LANGS
      = Except.error ⟨str "There are missing items in some files", true,
          (checkMissingEntries tbl LANGS).2⟩ := by
  have hie : (missingLangs LANGS e).isEmpty = false := by
    rcases hm : missingLangs LANGS e with _ | ⟨a, l⟩
    · exact absurd hm hmiss
    · rfl
  have hmemafter : (k, e) ∈ (checkMissingEntries tbl LANGS).1 := by
    rw [checkMissingEntries_eq]
    have : ((k, e).1, if (missingLangs LANGS (k, e).2).isEmpty
        then setPseudoEntry (k, e).1 (k, e).2 else (k, e).2) = (k, e) := by
      simp [hie]
    rw [← this]
    exact List.mem_map_of_mem _ hmem
  have hsplit : ∃ pre post,
      (checkMissingEntries tbl LANGS).2
        = pre ++ (missingLangs LANGS e).map (fun lang => mkMissingDiag k lang) ++ post := by
    obtain ⟨s, t, rfl⟩ := List.append_of_mem hmem
    rw [checkMissingEntries_eq]
    refine ⟨(s.map (fun p => (missingLangs LANGS p.2).map (fun lang => mkMissingDiag p.1 lang))).flatten,
            (t.map (fun p => (missingLangs LANGS p.2).map (fun lang => mkMissingDiag p.1 lang))).flatten, ?_⟩
    simp [List.append_assoc]
  refine ⟨hmemafter, hsplit, fun lang => rfl, ?_⟩
  obtain ⟨pre, post, hs⟩ := hsplit
  have hne : (checkMissingEntries tbl LANGS).2 ≠ [] := by
    rw [hs]
    intro hnil
    rcases List.append_eq_nil.mp hnil with ⟨h1, -⟩
    rcases List.append_eq_nil.mp h1 with ⟨-, h2⟩
    rw [List.map_eq_nil_iff] at h2
    exact hmiss h2
  unfold runCheckMissing
  have : (checkMissingEntries tbl LANGS).2.isEmpty = false := by
    rcases hm : (checkMissingEntries tbl LANGS).2 with _ | ⟨a, l⟩
    · exact absurd hm hne
    · rfl
  simp [this]

/-- Witness for claim C5: the spec's own example, `greeting` present for
`en` and `es` but not `pt`; the entry survives unchanged and the checker
raises the aggregate error. -/
theorem claim_C5_witness :
    ((str "greeting", [(str "en", str "a"), (str "es", str "b")]) ∈
        (checkMissingEntries
          [(str "greeting", [(str "en", str "a"), (str "es", str "b")])] LANGS).1) ∧
    runCheckMissing [(str "greeting", [(str "en", str "a"), (str "es", str "b")])] LANGS
      = Except.error ⟨str "There are missing items in some files", true,
          (checkMissingEntries
            [(str "greeting", [(str "en", str "a"), (str "es", str "b")])] LANGS).2⟩ :=
  ⟨(claim_C5 [(str "greeting", [(str "en", str "a"), (str "es", str "b")])]
      (str "greeting") [(str "en", str "a"), (str "es", str "b")]
      (List.mem_singleton.mpr rfl) (by decide)).1,
   (claim_C5 [(str "greeting", [(str "en", str "a"), (str "es", str "b")])]
      (str "greeting") [(str "en", str "a"), (str "es", str "b")]
      (List.mem_singleton.mpr rfl) (by decide)).2.2.2⟩

/-- Claim C6: for a fully-covered `locale` key the checker stores the
literal string `pseudo` as its diagnostic-language value, and no possible
output of the pseudolocalization transform equals that literal (the
transform always parenthesises). -/
theorem claim_C6 (tbl : Table) (e : Entry)
    (hmem : (str "locale", e) ∈ tbl)
    (hfull : (missingLangs LANGS e).isEmpty = true) :
    (str "locale", dictSet pseudoLang (str "pseudo") e) ∈ (checkMissingEntries tbl LANGS).1 ∧
    lookupStr pseudoLang (dictSet pseudoLang (str "pseudo") e) = some (str "pseudo") ∧
    ∀ v : Str, pseudoloc v ≠ str "pseudo" := by
  refine ⟨?_, lookupStr_dictSet_self _ _ _, ?_⟩
  · rw [checkMissingEntries_eq]
    have : ((str "locale", e).1,
        if (missingLangs LANGS (str "locale", e).2).isEmpty
        then setPseudoEntry (str "locale", e).1 (str "locale", e).2 else (str "locale", e).2)
          = (str "locale", dictSet pseudoLang (str "pseudo") e) := by
      simp only [hfull, if_true]
      unfold setPseudoEntry
      rw [if_pos rfl]
    rw [← this]
    exact List.mem_map_of_mem _ hmem
  · intro v hv
    have h1 : pseudoloc v =
        '(' :: ((((pseudoSplit v).map
          (fun t => if (str "%(").isPrefixOf t && (str ")").isSuffixOf t then t
                    else t.map translChar)).flatten) ++ [')']) := rfl
    have h2 : str "pseudo" = 'p' :: str "seudo" := rfl
    rw [h1, h2] at hv
    have := (List.cons.inj hv).1
    exact absurd this (by decide)

/-- Witness for claim C6 at a concrete table. -/
theorem claim_C6_witness :
    ((str "locale", dictSet pseudoLang (str "pseudo")
        [(str "en", str "x"), (str "es", str "y"), (str "pt", str "z")]) ∈
      (checkMissingEntries
        [(str "locale", [(str "en", str "x"), (str "es", str "y"), (str "pt", str "z")])]
        LANGS).1) ∧
    lookupStr pseudoLang (dictSet pseudoLang (str "pseudo")
        [(str "en", str "x"), (str "es", str "y"), (str "pt", str "z")])
      = some (str "pseudo") ∧
    pseudoloc (str "pseudo") ≠ str "pseudo" :=
  ⟨(claim_C6 [(str "locale", [(str "en", str "x"), (str "es", str "y"), (str "pt", str "z")])]
      [(str "en", str "x"), (str "es", str "y"), (str "pt", str "z")]
      (List.mem_singleton.mpr rfl) (by decide)).1,
   (claim_C6 [(str "locale", [(str "en", str "x"), (str "es", str "y"), (str "pt", str "z")])]
      [(str "en", str "x"), (str "es", str "y"), (str "pt", str "z")]
      (List.mem_singleton.mpr rfl) (by decide)).2.1,
   (claim_C6 [(str "locale", [(str "en", str "x"), (str "es", str "y"), (str "pt", str "z")])]
      [(str "en", str "x"), (str "es", str "y"), (str "pt", str "z")]
      (List.mem_singleton.mpr rfl) (by decide)).2.2 (str "pseudo")⟩

/-! ### The quote escaping and its inverse -/

theorem escapeQuote_head_ne (v : Str) (c : Char) (cs : Str)
    (h : escapeQuote v = c :: cs) : c ≠ '"' := by
  cases v with
  | nil => simp [escapeQuote] at h
  | cons c0 r =>
    by_cases hc : c0 = '"'
    · rw [show escapeQuote (c0 :: r) = '\\' :: '"' :: escapeQuote r by
        simp [escapeQuote, hc]] at h
      rw [(List.cons.inj h).1.symm]
      decide
    · rw [show escapeQuote (c0 :: r) = c0 :: escapeQuote r by
        simp [escapeQuote, hc]] at h
      rw [(List.cons.inj h).1.symm]
      exact hc

theorem escapeQuote_eq_nil_iff (v : Str) : escapeQuote v = [] ↔ v = [] := by
  cases v with
  | nil => simp [escapeQuote]
  | cons c r =>
    constructor
    · intro h
      by_cases hc : c = '"' <;> simp [escapeQuote, hc] at h
    · intro h
      simp at h

theorem replaceBsQuote_escapeQuote (v : Str) : replaceBsQuote (escapeQuote v) = v := by
  induction v with
  | nil => rfl
  | cons c r ih =>
    by_cases hc : c = '"'
    · subst hc
      rw [show escapeQuote ('"' :: r) = '\\' :: '"' :: escapeQuote r by simp [escapeQuote]]
      rw [show replaceBsQuote ('\\' :: '"' :: escapeQuote r)
            = '"' :: replaceBsQuote (escapeQuote r) by simp [replaceBsQuote]]
      rw [ih]
    · rw [show escapeQuote (c :: r) = c :: escapeQuote r by simp [escapeQuote, hc]]
      cases he : escapeQuote r with
      | nil =>
        rw [(escapeQuote_eq_nil_iff r).mp he]
        rfl
      | cons d ds =>
        have hd : d ≠ '"' := escapeQuote_head_ne r d ds he
        rw [show replaceBsQuote (c :: d :: ds) = c :: replaceBsQuote (d :: ds) by
          simp [replaceBsQuote]
          intro h1 h2
          exact absurd h2 hd]
        rw [← he, ih]

theorem matchValueBody_escapeQuote (v : Str) : matchValueBody (escapeQuote v) = true := by
  induction v with
  | nil => rfl
  | cons c r ih =>
    by_cases hc : c = '"'
    · subst hc
      rw [show escapeQuote ('"' :: r) = '\\' :: '"' :: escapeQuote r by simp [escapeQuote]]
      rw [show matchValueBody ('\\' :: '"' :: escapeQuote r)
            = matchValueBody (escapeQuote r) by simp [matchValueBody]]
      exact ih
    · rw [show escapeQuote (c :: r) = c :: escapeQuote r by simp [escapeQuote, hc]]
      cases he : escapeQuote r with
      | nil => simp [matchValueBody, hc]
      | cons d ds =>
        have hd : d ≠ '"' := escapeQuote_head_ne r d ds he
        rw [show matchValueBody (c :: d :: ds) = matchValueBody (d :: ds) by
          simp [matchValueBody, hc]
          intro h1 h2
          exact absurd h2 hd]
        rw [← he]
        exact ih

theorem escapeQuote_replaceBsQuote :
    ∀ w : Str, matchValueBody w = true → escapeQuote (replaceBsQuote w) = w
  | [], _ => rfl
  | [c], h => by
    have hc : c ≠ '"' := by
      intro hcq
      subst hcq
      simp [matchValueBody] at h
    simp [replaceBsQuote, escapeQuote, hc]
  | c :: d :: rest, h => by
    by_cases hcd : c = '\\' ∧ d = '"'
    · have h' : matchValueBody rest = true := by
        obtain ⟨h1, h2⟩ := hcd
        subst h1; subst h2
        simpa [matchValueBody] using h
      obtain ⟨h1, h2⟩ := hcd
      subst h1; subst h2
      rw [show replaceBsQuote ('\\' :: '"' :: rest) = '"' :: replaceBsQuote rest by
        simp [replaceBsQuote]]
      rw [show escapeQuote ('"' :: replaceBsQuote rest)
            = '\\' :: '"' :: escapeQuote (replaceBsQuote rest) by simp [escapeQuote]]
      rw [escapeQuote_replaceBsQuote rest h']
    · have hc : c ≠ '"' := by
        intro hcq
        subst hcq
        simp [matchValueBody, hcd] at h
      have h' : matchValueBody (d :: rest) = true := by
        simpa [matchValueBody, hcd, hc] using h
      rw [show replaceBsQuote (c :: d :: rest) = c :: replaceBsQuote (d :: rest) by
        simp [replaceBsQuote, hcd]]
      rw [show escapeQuote (c :: replaceBsQuote (d :: rest))
            = c :: escapeQuote (replaceBsQuote (d :: rest)) by simp [escapeQuote, hc]]
      rw [escapeQuote_replaceBsQuote (d :: rest) h']

theorem mem_escapeQuote (v : Str) (c : Char) (h : c ∈ escapeQuote v) :
    c = '\\' ∨ c ∈ v := by
  induction v with
  | nil => simp [escapeQuote] at h
  | cons c0 r ih =>
    by_cases hq : c0 = '"'
    · rw [show escapeQuote (c0 :: r) = '\\' :: '"' :: escapeQuote r by
        simp [escapeQuote, hq]] at h
      rcases List.mem_cons.mp h with h0 | h0
      · exact Or.inl h0
      · rcases List.mem_cons.mp h0 with h1 | h1
        · exact Or.inr (by rw [h1, ← hq]; exact List.mem_cons_self _ _)
        · rcases ih h1 with h2 | h2
          · exact Or.inl h2
          · exact Or.inr (List.mem_cons_of_mem _ h2)
    · rw [show escapeQuote (c0 :: r) = c0 :: escapeQuote r by
        simp [escapeQuote, hq]] at h
      rcases List.mem_cons.mp h with h0 | h0
      · exact Or.inr (by rw [h0]; exact List.mem_cons_self _ _)
      · rcases ih h0 with h2 | h2
        · exact Or.inl h2
        · exact Or.inr (List.mem_cons_of_mem _ h2)

theorem hasNoNewline_escapeQuote (v : Str) (h : hasNoNewline v = true) :
    hasNoNewline (escapeQuote v) = true := by
  simp only [hasNoNewline, List.all_eq_true, decide_eq_true_eq] at h ⊢
  intro c hc
  rcases mem_escapeQuote v c hc with h0 | h0
  · rw [h0]; decide
  · exact h c h0

/-! ### Line-level parsing of well-formed lines -/

theorem dropWhile_eq_self_of_head (p : Char → Bool) (l : Str)
    (h : ∀ c, l.head? = some c → p c = false) : l.dropWhile p = l := by
  cases l with
  | nil => rfl
  | cons c cs =>
    rw [List.dropWhile_cons, h c rfl]
    simp

theorem pyStrip_eq_self (l : Str)
    (hh : ∀ c, l.head? = some c → isPySpace c = false)
    (hl : ∀ c, l.getLast? = some c → isPySpace c = false) :
    pyStrip l = l := by
  unfold pyStrip
  rw [dropWhile_eq_self_of_head _ _ hh]
  rw [dropWhile_eq_self_of_head _ _
    (fun c hc => hl c (by rwa [List.head?_reverse] at hc))]
  exact List.reverse_reverse l

theorem findSepFrom_good (k q : Str) (pre : Str)
    (hk : ∀ c ∈ k, isPySpace c = false)
    (hq : ∀ c, q.head? = some c → isPySpace c = false) :
    findSepFrom pre (k ++ ' ' :: '=' :: ' ' :: q) = some (pre.reverse ++ k, q) := by
  induction k generalizing pre with
  | nil =>
    rw [List.nil_append]
    have hd : ((' ' : Char) :: '=' :: ' ' :: q).dropWhile isPySpace = '=' :: ' ' :: q := by
      rw [List.dropWhile_cons_of_pos (by decide), List.dropWhile_cons_of_neg (by decide)]
    have hq' : q.dropWhile isPySpace = q := dropWhile_eq_self_of_head _ _ hq
    simp only [findSepFrom, hd]
    rw [if_pos (by decide)]
    simp only [if_pos (show isPySpace ' ' = true by decide)]
    rw [List.dropWhile_cons_of_pos (by decide), hq']
    simp
  | cons c k' ih =>
    have hc : isPySpace c = false := hk c (List.mem_cons_self _ _)
    have hk' : ∀ c ∈ k', isPySpace c = false := fun c hc => hk c (List.mem_cons_of_mem _ hc)
    rw [List.cons_append]
    simp only [findSepFrom, hc]
    rw [if_neg (by simp [hc])]
    rw [ih (c :: pre) hk']
    simp

theorem matchQuoted_quoted (m : Str) (h : matchValueBody m = true) :
    matchQuoted ('"' :: (m ++ ['"'])) = some m := by
  have hr : (m ++ ['"']).reverse = '"' :: m.reverse := by simp
  simp only [matchQuoted, hr, List.reverse_reverse, h, if_true]

theorem parseLineKV_good (k v : Str)
    (hk1 : k ≠ []) (hk2 : ∀ c ∈ k, isPySpace c = false) :
    parseLineKV (lineBody k v) = some (k, v) := by
  have hstrip : pyStrip (lineBody k v) = lineBody k v := by
    apply pyStrip_eq_self
    · intro c hc
      cases k with
      | nil => exact absurd rfl hk1
      | cons c0 k' =>
        rw [show lineBody (c0 :: k') v
            = c0 :: (k' ++ ' ' :: '=' :: ' ' :: '"' :: (escapeQuote v ++ ['"'])) by
          simp [lineBody]] at hc
        rw [show (c0 :: (k' ++ ' ' :: '=' :: ' ' :: '"' :: (escapeQuote v ++ ['"']))).head?
            = some c0 from rfl] at hc
        rw [← Option.some.inj hc]
        exact hk2 c0 (List.mem_cons_self _ _)
    · intro c hc
      have hres : lineBody k v
          = (k ++ ' ' :: '=' :: ' ' :: '"' :: escapeQuote v) ++ ['"'] := by
        simp [lineBody]
      rw [hres, List.getLast?_concat] at hc
      rw [← Option.some.inj hc]
      decide
  have hsep : findSep (lineBody k v)
      = some (k, '"' :: (escapeQuote v ++ ['"'])) := by
    unfold findSep lineBody
    rw [findSepFrom_good k ('"' :: (escapeQuote v ++ ['"'])) [] hk2
      (fun c hc => by rw [← Option.some.inj hc]; decide)]
    simp
  unfold parseLineKV
  rw [hstrip, hsep]
  simp only [matchQuoted_quoted (escapeQuote v) (matchValueBody_escapeQuote v)]
  simp [replaceBsQuote_escapeQuote]

/-! ### The per-line loop body -/

theorem processLine_ok (lang fn : Str) (strings : Table) (diags : List Diagnostic)
    (idx : Nat) (line k v : Str) (h : parseLineKV line = some (k, v)) :
    processLine lang fn strings diags idx line = (tableSet k lang v strings, diags) := by
  cases hf : findSep (pyStrip line) with
  | none => simp [parseLineKV, hf] at h
  | some kv =>
    cases hm : matchQuoted kv.2 with
    | none => simp [parseLineKV, hf, hm] at h
    | some mid =>
      have h' : kv.1 = k ∧ replaceBsQuote mid = v := by
        have h2 := h
        simp only [parseLineKV, hf, hm, Option.map] at h2
        have h3 : (kv.1, replaceBsQuote mid) = (k, v) := Option.some.inj h2
        exact ⟨congrArg Prod.fst h3, congrArg Prod.snd h3⟩
      simp only [processLine, hf, hm]
      rw [h'.1, h'.2]
      rfl

theorem processLine_diags (lang fn : Str) (strings : Table) (diags : List Diagnostic)
    (idx : Nat) (line : Str) :
    (processLine lang fn strings diags idx line).2
      = diags ++ (lineDiag fn idx line).toList := by
  cases hf : findSep (pyStrip line) with
  | none => simp [processLine, lineDiag, hf]
  | some kv =>
    cases hm : matchQuoted kv.2 with
    | none => simp [processLine, lineDiag, hf, hm]
    | some mid => simp [processLine, lineDiag, hf, hm]

theorem lineDiag_eq_none_iff (fn : Str) (idx : Nat) (line : Str) :
    lineDiag fn idx line = none ↔ (parseLineKV line).isSome := by
  cases hf : findSep (pyStrip line) with
  | none => simp [lineDiag, parseLineKV, hf]
  | some kv =>
    cases hm : matchQuoted kv.2 with
    | none => simp [lineDiag, parseLineKV, hf, hm]
    | some mid => simp [lineDiag, parseLineKV, hf, hm]

theorem lineDiag_line_field (fn : Str) (idx : Nat) (line : Str) (d : Diagnostic)
    (h : lineDiag fn idx line = some d) : d.line = some (pyStrip line) := by
  cases hf : findSep (pyStrip line) with
  | none =>
    simp only [lineDiag, hf] at h
    rw [← Option.some.inj h]
  | some kv =>
    cases hm : matchQuoted kv.2 with
    | none =>
      simp only [lineDiag, hf, hm, Option.isNone_none, if_true] at h
      rw [← Option.some.inj h]
    | some mid =>
      simp [lineDiag, hf, hm] at h

/-! ### Splitting generated content back into lines -/

theorem splitOnNl_append (b l : Str) (hb : hasNoNewline b = true) :
    splitOnNl (b ++ '\n' :: l) = b :: splitOnNl l := by
  induction b with
  | nil =>
    rw [List.nil_append]
    simp [splitOnNl]
  | cons c b' ih =>
    have hc : (c = '\n') = False := by
      simp only [hasNoNewline, List.all_cons, Bool.and_eq_true, decide_eq_true_eq] at hb
      simpa using hb.1
    have hb' : hasNoNewline b' = true := by
      simp only [hasNoNewline, List.all_cons, Bool.and_eq_true] at hb
      exact hb.2
    rw [List.cons_append]
    simp only [splitOnNl, hc, if_false]
    rw [ih hb']

theorem splitOnNl_flatten (bodies : List Str)
    (hb : ∀ b ∈ bodies, hasNoNewline b = true) :
    splitOnNl ((bodies.map (fun b => b ++ ['\n'])).flatten) = bodies ++ [[]] := by
  induction bodies with
  | nil => rfl
  | cons b bs ih =>
    rw [List.map_cons, List.flatten_cons]
    have h1 : (b ++ ['\n']) ++ (bs.map (fun b => b ++ ['\n'])).flatten
        = b ++ '\n' :: (bs.map (fun b => b ++ ['\n'])).flatten := by
      simp
    rw [h1, splitOnNl_append _ _ (hb b (List.mem_cons_self _ _))]
    rw [ih (fun b hbm => hb b (List.mem_cons_of_mem _ hbm))]
    rfl

theorem linesOf_flatten (bodies : List Str)
    (hb : ∀ b ∈ bodies, hasNoNewline b = true) :
    linesOf ((bodies.map (fun b => b ++ ['\n'])).flatten) = bodies := by
  unfold linesOf
  rw [splitOnNl_flatten bodies hb]
  exact List.dropLast_concat

/-! ### The parsing fold over a file's lines -/

theorem foldl_processLine_diags (lang fn : Str) (lines : List Str) :
    ∀ (n : Nat) (st : Table × List Diagnostic),
      ((List.enumFrom n lines).foldl
          (fun a p => processLine lang fn a.1 a.2 p.1 p.2) st).2
        = st.2 ++ (List.enumFrom n lines).filterMap (fun p => lineDiag fn p.1 p.2) := by
  induction lines with
  | nil => intro n st; simp
  | cons l ls ih =>
    intro n st
    rw [List.enumFrom_cons, List.foldl_cons, List.filterMap_cons]
    rw [ih (n + 1) (processLine lang fn st.1 st.2 n l)]
    rw [processLine_diags]
    cases hd : lineDiag fn n l with
    | none => simp [Option.toList]
    | some d => simp [Option.toList, List.append_assoc]

theorem parseFold_diags (lang : Str) (acc : Table × List Diagnostic) (content : Str) :
    (parseFold lang acc content).2 = acc.2 ++ diagsOfContent lang content := by
  unfold parseFold diagsOfContent
  exact foldl_processLine_diags lang (langFilePath lang) (linesOf content) 0 acc

theorem diagsOfContent_eq_nil_iff (lang : Str) (content : Str) :
    diagsOfContent lang content = []
      ↔ ∀ line ∈ linesOf content, (parseLineKV line).isSome := by
  unfold diagsOfContent
  rw [List.filterMap_eq_nil_iff, List.forall_mem_enum, List.forall_mem_iff_getElem]
  constructor
  · intro h i hi
    exact (lineDiag_eq_none_iff _ _ _).mp (h i hi)
  · intro h i hi
    exact (lineDiag_eq_none_iff _ _ _).mpr (h i hi)

theorem mem_of_mem_diagsOfContent (lang : Str) (content : Str) (d : Diagnostic)
    (h : d ∈ diagsOfContent lang content) :
    ∃ line ∈ linesOf content, d.line = some (pyStrip line) := by
  unfold diagsOfContent at h
  obtain ⟨p, hp, hd⟩ := List.mem_filterMap.mp h
  have hline : p.2 ∈ linesOf content := by
    have h2 := List.mem_enum_iff_getElem?.mp hp
    exact List.getElem?_mem h2
  exact ⟨p.2, hline, lineDiag_line_field _ _ _ _ hd⟩

/-! ### Claim C10: duplicate keys, last occurrence wins -/

theorem optLookup_tableSet (k k0 lang v : Str) (t : Table) :
    optLookup k lang (tableSet k0 lang v t)
      = if k0 = k then some v else optLookup k lang t := by
  by_cases hk : k0 = k
  · subst hk
    rw [if_pos rfl]
    cases he : lookupStr k0 t with
    | some e =>
      unfold optLookup tableSet ensureKey setEntry
      rw [he]
      simp only [Option.isSome_some, if_true, Option.getD_some]
      rw [lookupStr_dictSet_self]
      simp [lookupStr_dictSet_self]
    | none =>
      rw [tableSet_fresh _ _ _ _ he]
      unfold optLookup
      rw [lookupStr_append_none _ _ _ he]
      simp [lookupStr, lookupStr_dictSet_self]
  · rw [if_neg hk]
    have hk' : k ≠ k0 := fun h => hk h.symm
    unfold optLookup tableSet setEntry ensureKey
    by_cases he : (lookupStr k0 t).isSome = true
    · rw [if_pos he, lookupStr_dictSet_ne _ _ _ _ hk']
    · rw [if_neg he, lookupStr_dictSet_ne _ _ _ _ hk']
      cases hkt : lookupStr k t with
      | some e => rw [lookupStr_append_some _ _ _ _ hkt]
      | none =>
        rw [lookupStr_append_none _ _ _ hkt]
        simp [lookupStr, hk]

theorem foldl_processLine_lookup (lang fn k : Str) (lines : List Str) :
    ∀ (n : Nat) (st : Table × List Diagnostic),
      (∀ l ∈ lines, (parseLineKV l).isSome) →
      optLookup k lang
        ((List.enumFrom n lines).foldl
          (fun a p => processLine lang fn a.1 a.2 p.1 p.2) st).1
        = (lines.reverse.findSome?
            (fun line =>
              match parseLineKV line with
              | some kv => if kv.1 = k then some kv.2 else none
              | none => none)).or (optLookup k lang st.1) := by
  induction lines with
  | nil => intro n st _; simp
  | cons l ls ih =>
    intro n st hok
    obtain ⟨kv, hkv⟩ := Option.isSome_iff_exists.mp (hok l (List.mem_cons_self _ _))
    rw [List.enumFrom_cons, List.foldl_cons]
    rw [processLine_ok lang fn st.1 st.2 n l kv.1 kv.2 (by rw [hkv])]
    rw [ih (n + 1) _ (fun l' hl' => hok l' (List.mem_cons_of_mem _ hl'))]
    rw [show (tableSet kv.1 lang kv.2 st.1, st.2).1 = tableSet kv.1 lang kv.2 st.1 from rfl]
    rw [optLookup_tableSet]
    rw [List.reverse_cons, List.findSome?_append]
    have hl : [l].findSome?
        (fun line =>
          match parseLineKV line with
          | some kv => if kv.1 = k then some kv.2 else none
          | none => none)
        = if kv.1 = k then some kv.2 else none := by
      by_cases hc : kv.1 = k <;> simp [List.findSome?, hkv, hc]
    rw [hl]
    cases hx : ls.reverse.findSome?
        (fun line =>
          match parseLineKV line with
          | some kv => if kv.1 = k then some kv.2 else none
          | none => none) with
    | some w => simp [Option.or]
    | none =>
      by_cases hc : kv.1 = k <;> simp [Option.or, hc]

/-- Claim C10: over a file whose lines are all well-formed (in particular
one where a key occurs on several lines), the parser emits no diagnostics
and the table maps each key, for that language, to the value of its last
occurrence in file order. -/
theorem claim_C10 (lang k : Str) (content : Str)
    (hok : ∀ line ∈ linesOf content, (parseLineKV line).isSome) :
    (parseFold lang ([], []) content).2 = [] ∧
    optLookup k lang (parseFold lang ([], []) content).1 = lastValueOf k content := by
  constructor
  · rw [parseFold_diags]
    rw [List.nil_append]
    exact (diagsOfContent_eq_nil_iff lang content).mpr hok
  · unfold parseFold lastValueOf
    rw [show (linesOf content).enum = List.enumFrom 0 (linesOf content) from rfl]
    rw [foldl_processLine_lookup lang (langFilePath lang) k (linesOf content) 0 ([], []) hok]
    rw [show optLookup k lang (([], []) : Table × List Diagnostic).1 = none by
      simp [optLookup, lookupStr]]
    cases (linesOf content).reverse.findSome?
        (fun line =>
          match parseLineKV line with
          | some kv => if kv.1 = k then some kv.2 else none
          | none => none) with
    | some w => rfl
    | none => rfl

/-- Witness for claim C10: a file in which `a` occurs twice; the parsed
value is that of the second line, with no diagnostics. -/
theorem claim_C10_witness :
    (parseFold (str "en") ([], []) (str "a = \"1\"\na = \"2\"\n")).2 = [] ∧
    optLookup (str "a") (str "en")
        (parseFold (str "en") ([], []) (str "a = \"1\"\na = \"2\"\n")).1
      = lastValueOf (str "a") (str "a = \"1\"\na = \"2\"\n") :=
  claim_C10 (str "en") (str "a") (str "a = \"1\"\na = \"2\"\n") (by decide)

/-! ### Claim C4: the aggregate malformed-source error -/

theorem langFold_diags (cb : Str → Str) (langs : List Str) :
    ∀ acc : Table × List Diagnostic,
      (langs.foldl (fun a lang => parseFold lang a (cb (langFilePath lang))) acc).2
        = acc.2 ++ (langs.map (fun lang => diagsOfContent lang (cb (langFilePath lang)))).flatten := by
  induction langs with
  | nil => intro acc; simp
  | cons l ls ih =>
    intro acc
    rw [List.foldl_cons, ih, parseFold_diags]
    simp [List.append_assoc]

theorem getTranslatedStrings_diags (cb : Str → Str) :
    (LANGS.foldl (fun a lang => parseFold lang a (cb (langFilePath lang))) ([], [])).2
      = (LANGS.map (fun lang => diagsOfContent lang (cb (langFilePath lang)))).flatten := by
  rw [langFold_diags]
  simp

/-- Claim C4: the parser raises the aggregate `Invalid i18n files` error,
not auto-fixable, if and only if some line of some language file fails the
key/value split or the quoted-value pattern; the error carries one
diagnostic per failing line across all files (parsing does not stop at the
first failure), and every diagnostic embeds the offending trimmed line. -/
theorem claim_C4 (cb : Str → Str) :
    ((∃ e, getTranslatedStrings cb = Except.error e)
        ↔ ∃ lang ∈ LANGS, ∃ line ∈ linesOf (cb (langFilePath lang)),
            parseLineKV line = none) ∧
    (∀ e, getTranslatedStrings cb = Except.error e →
        e.message = str "Invalid i18n files" ∧ e.fixable = false ∧
        e.diagnostics
          = (LANGS.map (fun lang => diagsOfContent lang (cb (langFilePath lang)))).flatten ∧
        (∀ d ∈ e.diagnostics, ∃ lang ∈ LANGS,
            ∃ line ∈ linesOf (cb (langFilePath lang)), d.line = some (pyStrip line))) := by
  cases hr : LANGS.foldl (fun a lang => parseFold lang a (cb (langFilePath lang))) ([], []) with
  | mk tbl diags =>
    have hD : diags
        = (LANGS.map (fun lang => diagsOfContent lang (cb (langFilePath lang)))).flatten := by
      have h := getTranslatedStrings_diags cb
      rw [hr] at h
      exact h
    have hform : getTranslatedStrings cb
        = if diags.isEmpty then
            Except.ok (tbl.filter (fun p => !(List.isPrefixOf (str "badge_") p.1)))
          else Except.error ⟨str "Invalid i18n files", false, diags⟩ := by
      simp only [getTranslatedStrings, hr]
    have hfail : diags ≠ [] ↔ ∃ lang ∈ LANGS, ∃ line ∈ linesOf (cb (langFilePath lang)),
        parseLineKV line = none := by
      rw [hD]
      constructor
      · intro hne
        have : ¬ ∀ l ∈ LANGS.map (fun lang => diagsOfContent lang (cb (langFilePath lang))), l = [] := by
          intro hall
          exact hne (List.flatten_eq_nil_iff.mpr hall)
        push_neg at this
        obtain ⟨blk, hblk, hblkne⟩ := this
        obtain ⟨lang, hlang, rfl⟩ := List.mem_map.mp hblk
        have : ¬ ∀ line ∈ linesOf (cb (langFilePath lang)), (parseLineKV line).isSome = true := by
          intro hall
          exact hblkne ((diagsOfContent_eq_nil_iff _ _).mpr hall)
        push_neg at this
        obtain ⟨line, hline, hns⟩ := this
        refine ⟨lang, hlang, line, hline, ?_⟩
        cases hpk : parseLineKV line with
        | none => rfl
        | some kv => exact absurd (by rw [hpk]; rfl) hns
      · rintro ⟨lang, hlang, line, hline, hnone⟩ hnil
        have hblk : diagsOfContent lang (cb (langFilePath lang)) = [] :=
          List.flatten_eq_nil_iff.mp hnil _ (List.mem_map_of_mem _ hlang)
        have := (diagsOfContent_eq_nil_iff _ _).mp hblk line hline
        rw [hnone] at this
        exact absurd this (by decide)
    constructor
    · by_cases he : diags.isEmpty = true
      · rw [List.isEmpty_iff] at he
        constructor
        · rintro ⟨e, hee⟩
          rw [hform, if_pos (by rw [he]; rfl)] at hee
          exact absurd hee (by simp)
        · intro hex
          exact absurd he (hfail.mpr hex)
      · have hne : diags ≠ [] := by
          intro hnil
          rw [hnil] at he
          exact he rfl
        constructor
        · intro _
          exact hfail.mp hne
        · intro _
          refine ⟨⟨str "Invalid i18n files", false, diags⟩, ?_⟩
          rw [hform, if_neg he]
    · intro e hee
      by_cases he : diags.isEmpty = true
      · rw [hform, if_pos he] at hee
        exact absurd hee (by simp)
      · rw [hform, if_neg he] at hee
        have h0 := Except.error.inj hee
        rw [← h0]
        refine ⟨rfl, rfl, hD, ?_⟩
        intro d hd
        rw [hD] at hd
        obtain ⟨blk, hblk, hdblk⟩ := List.mem_flatten.mp hd
        obtain ⟨lang, hlang, rfl⟩ := List.mem_map.mp hblk
        obtain ⟨line, hline, hdl⟩ := mem_of_mem_diagsOfContent _ _ _ hdblk
        exact ⟨lang, hlang, line, hline, hdl⟩

/-- Witness for claim C4: a callback whose `en` file has one malformed
line makes the parser raise the aggregate non-fixable error carrying the
per-language diagnostics. -/
theorem claim_C4_witness :
    (⟨str "Invalid i18n files", false,
        [⟨unpackErrMsg, langFilePath (str "en"), some 1,
          some (str "bad line")⟩]⟩ : LinterException).message
      = str "Invalid i18n files" ∧
    (⟨str "Invalid i18n files", false,
        [⟨unpackErrMsg, langFilePath (str "en"), some 1,
          some (str "bad line")⟩]⟩ : LinterException).fixable = false ∧
    (⟨str "Invalid i18n files", false,
        [⟨unpackErrMsg, langFilePath (str "en"), some 1,
          some (str "bad line")⟩]⟩ : LinterException).diagnostics
      = (LANGS.map (fun lang => diagsOfContent lang
          ((fun p => if p = langFilePath (str "en") then str "bad line\n" else str "")
            (langFilePath lang)))).flatten := by
  have h2 :=
    (claim_C4 (fun p => if p = langFilePath (str "en") then str "bad line\n" else str "")).2
      ⟨str "Invalid i18n files", false,
        [⟨unpackErrMsg, langFilePath (str "en"), some 1, some (str "bad line")⟩]⟩
      (by rfl)
  exact ⟨h2.1, h2.2.1, h2.2.2.1⟩

/-! ### Claim C3: the sorted-source round trip -/

theorem goodKey_iff (k : Str) :
    goodKey k = true ↔ (k ≠ [] ∧ ∀ c ∈ k, isPySpace c = false) := by
  unfold goodKey
  rw [Bool.and_eq_true, List.all_eq_true]
  constructor
  · rintro ⟨h1, h2⟩
    refine ⟨?_, fun c hc => by simpa using h2 c hc⟩
    intro hnil
    rw [hnil] at h1
    exact absurd h1 (by decide)
  · rintro ⟨h1, h2⟩
    refine ⟨?_, fun c hc => by simpa using h2 c hc⟩
    cases k with
    | nil => exact absurd rfl h1
    | cons c cs => rfl

theorem hasNoNewline_lineBody (k v : Str)
    (hk : ∀ c ∈ k, isPySpace c = false) (hv : hasNoNewline v = true) :
    hasNoNewline (lineBody k v) = true := by
  have hke : hasNoNewline (escapeQuote v) = true := hasNoNewline_escapeQuote v hv
  simp only [hasNoNewline, List.all_eq_true, decide_eq_true_eq] at hke ⊢
  intro c hc
  simp only [lineBody, List.append_assoc, List.mem_append, List.mem_cons] at hc
  rcases hc with hc | hc | hc | hc | hc | hc
  · intro heq
    have := hk c hc
    rw [heq] at this
    exact absurd this (by decide)
  · rw [hc]; decide
  · rw [hc]; decide
  · rw [hc]; decide
  · rw [hc]; decide
  · rcases hc with hc | hc | hc
    · exact hke c hc
    · rw [hc]; decide
    · simp at hc

theorem generateSorted_eq_lines (lang : Str) (strings : Table) :
    generateSorted lang strings
      = (((sortKeys strings).map (fun k => lineBody k (getVal strings k lang))).map
          (fun b => b ++ ['\n'])).flatten := by
  unfold generateSorted
  rw [List.map_map]
  congr 1
  apply List.map_congr_left
  intro k _
  show k ++ str " = " ++ ('"' :: escapeQuote (getVal strings k lang)) ++ str "\"\n"
      = lineBody k (getVal strings k lang) ++ ['\n']
  have h1 : str " = " = [' ', '=', ' '] := rfl
  have h2 : str "\"\n" = ['"', '\n'] := rfl
  rw [h1, h2]
  simp [lineBody]

theorem foldl_processLine_generated (lang fn : Str) (vOf : Str → Str) (ks : List Str) :
    ∀ (n : Nat) (st : Table × List Diagnostic),
      ks.Nodup →
      (∀ k ∈ ks, k ≠ [] ∧ (∀ c ∈ k, isPySpace c = false) ∧ lookupStr k st.1 = none) →
      (List.enumFrom n (ks.map (fun k => lineBody k (vOf k)))).foldl
          (fun a p => processLine lang fn a.1 a.2 p.1 p.2) st
        = (st.1 ++ ks.map (fun k => (k, [(lang, vOf k)])), st.2) := by
  induction ks with
  | nil => intro n st _ _; simp
  | cons k0 ks' ih =>
    intro n st hnd hks
    obtain ⟨hk1, hk2, hk3⟩ := hks k0 (List.mem_cons_self _ _)
    rw [List.map_cons, List.enumFrom_cons, List.foldl_cons]
    rw [processLine_ok lang fn st.1 st.2 n _ k0 (vOf k0) (parseLineKV_good k0 (vOf k0) hk1 hk2)]
    have hnd' : ks'.Nodup := (List.nodup_cons.mp hnd).2
    have hk0 : k0 ∉ ks' := (List.nodup_cons.mp hnd).1
    have hks' : ∀ k ∈ ks', k ≠ [] ∧ (∀ c ∈ k, isPySpace c = false) ∧
        lookupStr k (tableSet k0 lang (vOf k0) st.1, st.2).1 = none := by
      intro k hk
      obtain ⟨a, b, c⟩ := hks k (List.mem_cons_of_mem _ hk)
      refine ⟨a, b, ?_⟩
      rw [show (tableSet k0 lang (vOf k0) st.1, st.2).1 = tableSet k0 lang (vOf k0) st.1
        from rfl]
      rw [tableSet_fresh _ _ _ _ hk3]
      rw [lookupStr_append_none _ _ _ c]
      have hne : k0 ≠ k := fun h => hk0 (h ▸ hk)
      simp [lookupStr, hne]
    rw [ih (n + 1) _ hnd' hks']
    rw [show (tableSet k0 lang (vOf k0) st.1, st.2).1 = tableSet k0 lang (vOf k0) st.1
      from rfl]
    rw [tableSet_fresh _ _ _ _ hk3]
    simp [List.append_assoc]

/-- Claim C3 (counterexample): for a table whose stored value contains an
actual newline character, parsing the sorted-source rendering does not
reproduce the table's entries (both produced lines are malformed). -/
theorem claim_C3_counterexample :
    parseFold (str "en") ([], [])
        (generateSorted (str "en") [(str "k", [(str "en", str "a\nb")])])
      ≠ ([(str "k", [(str "en", str "a\nb")])], []) := by decide

/-- Claim C3 (amended): for every table with distinct keys, each key
nonempty and whitespace-free, each key carrying an entry for `L`, and each
stored `L`-value free of newline characters, parsing the sorted-source
rendering for `L` reproduces exactly the (key, value) entries of the table
for `L` (in sorted key order, with no diagnostics); moreover the emission's
quote escaping and the parser's unescaping are mutually inverse (on all
strings in one direction, on all regex-matchable value bodies in the
other). -/
theorem claim_C3_amended (tbl : Table) (L : Str)
    (hnd : (tbl.map Prod.fst).Nodup)
    (hkeys : ∀ p ∈ tbl, goodKey p.1 = true)
    (hvals : ∀ p ∈ tbl, (lookupStr L p.2).isSome = true ∧
        hasNoNewline ((lookupStr L p.2).getD []) = true) :
    parseFold L ([], []) (generateSorted L tbl)
      = ((sortKeys tbl).map (fun k => (k, [(L, getVal tbl k L)])), []) ∧
    (∀ v : Str, replaceBsQuote (escapeQuote v) = v) ∧
    (∀ w : Str, matchValueBody w = true → escapeQuote (replaceBsQuote w) = w) := by
  refine ⟨?_, replaceBsQuote_escapeQuote, escapeQuote_replaceBsQuote⟩
  unfold parseFold
  have hkeys' : ∀ k ∈ sortKeys tbl, k ≠ [] ∧ (∀ c ∈ k, isPySpace c = false) := by
    intro k hk
    have hk2 : k ∈ tbl.map Prod.fst := ((sortKeys_perm tbl).mem_iff).mp hk
    obtain ⟨p, hp, hpe⟩ := List.mem_map.mp hk2
    exact (goodKey_iff k).mp (hpe ▸ hkeys p hp)
  have hvnl : ∀ k ∈ sortKeys tbl, hasNoNewline (getVal tbl k L) = true := by
    intro k hk
    have hk2 : k ∈ tbl.map Prod.fst := ((sortKeys_perm tbl).mem_iff).mp hk
    obtain ⟨e, he⟩ := Option.isSome_iff_exists.mp (lookupStr_isSome_of_mem_keys k tbl hk2)
    have := (hvals (k, e) (lookupStr_mem _ _ _ he)).2
    unfold getVal
    rw [he]
    exact this
  have hlines : linesOf (generateSorted L tbl)
      = (sortKeys tbl).map (fun k => lineBody k (getVal tbl k L)) := by
    rw [generateSorted_eq_lines]
    apply linesOf_flatten
    intro b hb
    obtain ⟨k, hk, rfl⟩ := List.mem_map.mp hb
    exact hasNoNewline_lineBody _ _ (hkeys' k hk).2 (hvnl k hk)
  rw [show (linesOf (generateSorted L tbl)).enum
      = List.enumFrom 0 (linesOf (generateSorted L tbl)) from rfl]
  rw [hlines]
  have hnds : (sortKeys tbl).Nodup := ((sortKeys_perm tbl).nodup_iff).mpr hnd
  rw [foldl_processLine_generated L (langFilePath L) (fun k => getVal tbl k L)
    (sortKeys tbl) 0 ([], []) hnds
    (fun k hk => ⟨(hkeys' k hk).1, (hkeys' k hk).2, rfl⟩)]
  simp

/-- Witness for claim C3 at the spec's example table. -/
theorem claim_C3_witness :
    parseFold (str "en") ([], [])
        (generateSorted (str "en") [(str "x", [(str "en", str "a \"b\"")])])
      = ((sortKeys [(str "x", [(str "en", str "a \"b\"")])]).map
          (fun k => (k, [(str "en",
            getVal [(str "x", [(str "en", str "a \"b\"")])] k (str "en"))])), []) :=
  (claim_C3_amended [(str "x", [(str "en", str "a \"b\"")])] (str "en")
    (by decide) (by decide) (by decide)).1

/-! ### Claim C7: badge keys are filtered from the parse and re-added by
the merger -/

theorem tableSet_self_exists (k l v : Str) (t : Table) :
    ∃ e, lookupStr k (tableSet k l v t) = some e ∧ lookupStr l e = some v := by
  cases he : lookupStr k t with
  | some e0 =>
    refine ⟨dictSet l v e0, ?_, lookupStr_dictSet_self _ _ _⟩
    unfold tableSet ensureKey setEntry
    rw [he]
    simp only [Option.isSome_some, if_true]
    rw [he]
    simp only [Option.getD_some]
    exact lookupStr_dictSet_self _ _ _
  | none =>
    rw [tableSet_fresh _ _ _ _ he]
    refine ⟨[(l, v)], ?_, by simp [lookupStr]⟩
    rw [lookupStr_append_none _ _ _ he]
    simp [lookupStr]

theorem tableSet_preserves (a b k l v : Str) (t : Table)
    (h : ∃ e, lookupStr a t = some e ∧ (lookupStr b e).isSome) :
    ∃ e, lookupStr a (tableSet k l v t) = some e ∧ (lookupStr b e).isSome := by
  obtain ⟨e, he, hb⟩ := h
  by_cases hak : k = a
  · subst hak
    refine ⟨dictSet l v e, ?_, lookupStr_isSome_dictSet _ _ _ _ hb⟩
    unfold tableSet ensureKey setEntry
    rw [he]
    simp only [Option.isSome_some, if_true]
    rw [he]
    simp only [Option.getD_some]
    exact lookupStr_dictSet_self _ _ _
  · refine ⟨e, ?_, hb⟩
    unfold tableSet setEntry ensureKey
    have hak' : a ≠ k := fun hh => hak hh.symm
    by_cases hs : (lookupStr k t).isSome = true
    · rw [if_pos hs, lookupStr_dictSet_ne _ _ _ _ hak', he]
    · rw [if_neg hs, lookupStr_dictSet_ne _ _ _ _ hak',
        lookupStr_append_some _ _ _ _ he]

theorem badgesInner_preserves (al : Str) (bd : Str → Str → Str × Str) (a b : Str)
    (langs : List Str) :
    ∀ S : Table, (∃ e, lookupStr a S = some e ∧ (lookupStr b e).isSome) →
      ∃ e, lookupStr a
          (langs.foldl (fun s lang =>
            tableSet (badgeDescKey al) lang (bd al lang).2
              (tableSet (badgeNameKey al) lang (bd al lang).1 s)) S)
        = some e ∧ (lookupStr b e).isSome := by
  induction langs with
  | nil => intro S h; exact h
  | cons l0 ls ih =>
    intro S h
    rw [List.foldl_cons]
    exact ih _ (tableSet_preserves _ _ _ _ _ _ (tableSet_preserves _ _ _ _ _ _ h))

theorem badgesInner_establish (al : Str) (bd : Str → Str → Str × Str) (lang : Str)
    (langs : List Str) :
    ∀ S : Table, lang ∈ langs →
      (∃ e, lookupStr (badgeNameKey al)
          (langs.foldl (fun s lang =>
            tableSet (badgeDescKey al) lang (bd al lang).2
              (tableSet (badgeNameKey al) lang (bd al lang).1 s)) S)
        = some e ∧ (lookupStr lang e).isSome) ∧
      (∃ e, lookupStr (badgeDescKey al)
          (langs.foldl (fun s lang =>
            tableSet (badgeDescKey al) lang (bd al lang).2
              (tableSet (badgeNameKey al) lang (bd al lang).1 s)) S)
        = some e ∧ (lookupStr lang e).isSome) := by
  induction langs with
  | nil => intro S h; simp at h
  | cons l0 ls ih =>
    intro S hmem
    rw [List.foldl_cons]
    rcases List.mem_cons.mp hmem with heq | hmem'
    · subst heq
      constructor
      · apply badgesInner_preserves
        apply tableSet_preserves
        obtain ⟨e, he, hv⟩ := tableSet_self_exists (badgeNameKey al) lang (bd al lang).1 S
        exact ⟨e, he, by rw [hv]; rfl⟩
      · apply badgesInner_preserves
        obtain ⟨e, he, hv⟩ :=
          tableSet_self_exists (badgeDescKey al) lang (bd al lang).2
            (tableSet (badgeNameKey al) lang (bd al lang).1 S)
        exact ⟨e, he, by rw [hv]; rfl⟩
    · exact ih _ hmem'

theorem badgesOuter_preserves (bd : Str → Str → Str × Str) (a b : Str)
    (aliases : List Str) :
    ∀ S : Table, (∃ e, lookupStr a S = some e ∧ (lookupStr b e).isSome) →
      ∃ e, lookupStr a
          (aliases.foldl (fun strings al =>
            LANGS.foldl (fun s lang =>
              tableSet (badgeDescKey al) lang (bd al lang).2
                (tableSet (badgeNameKey al) lang (bd al lang).1 s)) strings) S)
        = some e ∧ (lookupStr b e).isSome := by
  induction aliases with
  | nil => intro S h; exact h
  | cons a0 as ih =>
    intro S h
    rw [List.foldl_cons]
    exact ih _ (badgesInner_preserves a0 bd a b LANGS S h)

theorem badgesOuter_establish (bd : Str → Str → Str × Str) (al lang : Str)
    (aliases : List Str) :
    ∀ S : Table, al ∈ aliases → lang ∈ LANGS →
      (∃ e, lookupStr (badgeNameKey al)
          (aliases.foldl (fun strings al =>
            LANGS.foldl (fun s lang =>
              tableSet (badgeDescKey al) lang (bd al lang).2
                (tableSet (badgeNameKey al) lang (bd al lang).1 s)) strings) S)
        = some e ∧ (lookupStr lang e).isSome) ∧
      (∃ e, lookupStr (badgeDescKey al)
          (aliases.foldl (fun strings al =>
            LANGS.foldl (fun s lang =>
              tableSet (badgeDescKey al) lang (bd al lang).2
                (tableSet (badgeNameKey al) lang (bd al lang).1 s)) strings) S)
        = some e ∧ (lookupStr lang e).isSome) := by
  induction aliases with
  | nil => intro S h _; simp at h
  | cons a0 as ih =>
    intro S hmem hlang
    rw [List.foldl_cons]
    rcases List.mem_cons.mp hmem with heq | hmem'
    · subst heq
      have hinner := badgesInner_establish al bd lang LANGS S hlang
      exact ⟨badgesOuter_preserves bd _ _ as _ hinner.1,
        badgesOuter_preserves bd _ _ as _ hinner.2⟩
    · exact ih _ hmem' hlang

/-- Claim C7: no `badge_`-prefixed key survives the parser (even when such
a key appears in a source file), and the auxiliary merger populates both
derived keys of every item for every required language. -/
theorem claim_C7 :
    (∀ (cb : Str → Str) (tbl : Table), getTranslatedStrings cb = Except.ok tbl →
        ∀ p ∈ tbl, List.isPrefixOf (str "badge_") p.1 = false) ∧
    (∀ (aliases : List Str) (bd : Str → Str → Str × Str), ∀ al ∈ aliases, ∀ lang ∈ LANGS,
        (∃ e, lookupStr (badgeNameKey al) (addBadgesEntries aliases bd) = some e ∧
            (lookupStr lang e).isSome) ∧
        (∃ e, lookupStr (badgeDescKey al) (addBadgesEntries aliases bd) = some e ∧
            (lookupStr lang e).isSome)) := by
  constructor
  · intro cb tbl h p hp
    cases hr : LANGS.foldl (fun a lang => parseFold lang a (cb (langFilePath lang))) ([], []) with
    | mk t d =>
      have hform : getTranslatedStrings cb
          = if d.isEmpty then
              Except.ok (t.filter (fun p => !(List.isPrefixOf (str "badge_") p.1)))
            else Except.error ⟨str "Invalid i18n files", false, d⟩ := by
        simp only [getTranslatedStrings, hr]
      rw [hform] at h
      by_cases he : d.isEmpty = true
      · rw [if_pos he] at h
        rw [← Except.ok.inj h] at hp
        have := (List.mem_filter.mp hp).2
        simpa using this
      · rw [if_neg he] at h
        exact absurd h (by simp)
  · intro aliases bd al hal lang hlang
    unfold addBadgesEntries
    exact badgesOuter_establish bd al lang aliases [] hal hlang

/-- Witness for claim C7: a source file carrying a stale `badge_x_name`
line (dropped from the parse), and a merger run over one alias whose
derived keys are populated. -/
theorem claim_C7_witness :
    List.isPrefixOf (str "badge_") (str "locale") = false ∧
    (lookupStr (badgeNameKey (str "x"))
        (addBadgesEntries [str "x"] (fun _ _ => (str "n", str "d")))).isSome ∧
    (lookupStr (badgeDescKey (str "x"))
        (addBadgesEntries [str "x"] (fun _ _ => (str "n", str "d")))).isSome := by
  refine ⟨claim_C7.1
      (fun p => if p = langFilePath (str "en")
        then str "locale = \"x\"\nbadge_x_name = \"v\"\n" else str "locale = \"x\"\n")
      [(str "locale", [(str "en", str "x"), (str "es", str "x"), (str "pt", str "x")])]
      (by rfl)
      (str "locale", [(str "en", str "x"), (str "es", str "x"), (str "pt", str "x")])
      (by decide), ?_, ?_⟩
  · obtain ⟨e, he, -⟩ :=
      (claim_C7.2 [str "x"] (fun _ _ => (str "n", str "d")) (str "x")
        (List.mem_singleton.mpr rfl) (str "en") (by decide)).1
    rw [he]
    rfl
  · obtain ⟨e, he, -⟩ :=
      (claim_C7.2 [str "x"] (fun _ _ => (str "n", str "d")) (str "x")
        (List.mem_singleton.mpr rfl) (str "en") (by decide)).2
    rw [he]
    rfl

/-! ### Claim C8: the structured-map (JSON) emission -/

theorem foldl_dictSet_map (w : Str → Str) (ks : List Str) :
    ∀ acc : List (Str × Str), ks.Nodup → (∀ k ∈ ks, lookupStr k acc = none) →
      ks.foldl (fun m k => dictSet k (w k) m) acc = acc ++ ks.map (fun k => (k, w k)) := by
  induction ks with
  | nil => intro acc _ _; simp
  | cons k0 ks' ih =>
    intro acc hnd hfresh
    rw [List.foldl_cons, dictSet_fresh _ _ _ (hfresh k0 (List.mem_cons_self _ _))]
    have hk0 : k0 ∉ ks' := (List.nodup_cons.mp hnd).1
    rw [ih _ (List.nodup_cons.mp hnd).2
      (fun k hk => by
        rw [lookupStr_append_none _ _ _ (hfresh k (List.mem_cons_of_mem _ hk))]
        have hne : k0 ≠ k := fun hh => hk0 (hh ▸ hk)
        simp [lookupStr, hne])]
    simp [List.append_assoc]

/-- Claim C8: for every table (with distinct keys) and language, the JSON
emission equals the spec-worded rendering — a single JSON object over the
sorted keys, each value unescaped (`\"` → `"`, then `\n` → newline) before
JSON string-encoding, serialized with tab indentation; in particular the
table `{hi: {en: Hi!}}` emits the tab-indented object mapping `hi` to
`Hi!`. -/
theorem claim_C8 :
    (∀ (tbl : Table) (lang : Str), (tbl.map Prod.fst).Nodup →
        generateJson lang tbl = jsonSpecRender lang tbl) ∧
    generateJson (str "en") [(str "hi", [(str "en", str "Hi!")])]
      = str "\x7b\n\t\"hi\": \"Hi!\"\n\x7d" := by
  constructor
  · intro tbl lang hnd
    unfold generateJson jsonSpecRender
    congr 1
    have h := foldl_dictSet_map (fun k => pyUnescape (getVal tbl k lang)) (sortKeys tbl) []
      (((sortKeys_perm tbl).nodup_iff).mpr hnd) (fun k _ => rfl)
    rw [h]
    simp
  · decide

/-- Witness for claim C8 at the spec's example table. -/
theorem claim_C8_witness :
    generateJson (str "en") [(str "hi", [(str "en", str "Hi!")])]
      = jsonSpecRender (str "en") [(str "hi", [(str "en", str "Hi!")])] :=
  claim_C8.1 [(str "hi", [(str "en", str "Hi!")])] (str "en") (by decide)

/-! ### Claim C9: the drift detector and the pipeline result -/

theorem foldl_generateContentEntry (cb : Str → Str) (pairs : List (Str × Str)) :
    ∀ acc : List (Str × Str) × List (Str × Str),
      (pairs.map Prod.fst).Nodup →
      (∀ q ∈ pairs, lookupStr q.1 acc.1 = none ∧ lookupStr q.1 acc.2 = none) →
      pairs.foldl (fun a pc => generateContentEntry cb a pc.1 pc.2) acc
        = (acc.1 ++ pairs.filter (fun pc => cb pc.1 ≠ pc.2),
           acc.2 ++ (pairs.filter (fun pc => cb pc.1 ≠ pc.2)).map
             (fun pc => (pc.1, cb pc.1))) := by
  induction pairs with
  | nil => intro acc _ _; simp
  | cons q qs ih =>
    intro acc hnd hfresh
    rw [List.foldl_cons, List.filter_cons]
    obtain ⟨hf1, hf2⟩ := hfresh q (List.mem_cons_self _ _)
    have hnd' : (qs.map Prod.fst).Nodup := by
      rw [List.map_cons] at hnd
      exact (List.nodup_cons.mp hnd).2
    have hq0 : q.1 ∉ qs.map Prod.fst := by
      rw [List.map_cons] at hnd
      exact (List.nodup_cons.mp hnd).1
    by_cases hq : cb q.1 = q.2
    · have hstep : generateContentEntry cb acc q.1 q.2 = acc := by
        unfold generateContentEntry
        rw [if_neg (fun hne => hne hq)]
      rw [hstep, ih acc hnd' (fun p hp => hfresh p (List.mem_cons_of_mem _ hp))]
      simp [hq]
    · have hstep : generateContentEntry cb acc q.1 q.2
          = (acc.1 ++ [(q.1, q.2)], acc.2 ++ [(q.1, cb q.1)]) := by
        unfold generateContentEntry
        rw [if_pos hq, dictSet_fresh _ _ _ hf1, dictSet_fresh _ _ _ hf2]
      rw [hstep]
      rw [ih _ hnd' (fun p hp => by
        have hne : q.1 ≠ p.1 := fun hh => hq0 (hh ▸ List.mem_map_of_mem Prod.fst hp)
        obtain ⟨ha, hb⟩ := hfresh p (List.mem_cons_of_mem _ hp)
        constructor
        · rw [show (acc.1 ++ [(q.1, q.2)], acc.2 ++ [(q.1, cb q.1)]).1
              = acc.1 ++ [(q.1, q.2)] from rfl]
          rw [lookupStr_append_none _ _ _ ha]
          simp [lookupStr, hne]
        · rw [show (acc.1 ++ [(q.1, q.2)], acc.2 ++ [(q.1, cb q.1)]).2
              = acc.2 ++ [(q.1, cb q.1)] from rfl]
          rw [lookupStr_append_none _ _ _ hb]
          simp [lookupStr, hne])]
      simp [hq, List.append_assoc]

theorem generateNewContents_eq_fold (strings : Table) (cb : Str → Str) :
    generateNewContents strings cb
      = (renderList strings).foldl (fun a pc => generateContentEntry cb a pc.1 pc.2)
          ([], []) := rfl

theorem renderList_paths (strings : Table) :
    (renderList strings).map Prod.fst
      = [langFilePath (str "en"), tsFilePath (str "en"), jsonFilePath (str "en"),
         langFilePath (str "es"), tsFilePath (str "es"), jsonFilePath (str "es"),
         langFilePath (str "pt"), tsFilePath (str "pt"), jsonFilePath (str "pt"),
         langFilePath pseudoLang, tsFilePath pseudoLang, jsonFilePath pseudoLang] := rfl

/-- Claim C9: the drift detector records, for exactly the emitted (path,
rendering) pairs whose fresh rendering differs from the fetched on-disk
content, path → new content and path → original content (equal contents
produce no record in either map), and a successful `run_all` returns the
two maps of the drift detector together with the fixed label `i18n`. -/
theorem claim_C9 :
    (∀ (strings : Table) (cb : Str → Str),
        (generateNewContents strings cb).1
          = (renderList strings).filter (fun pc => cb pc.1 ≠ pc.2) ∧
        (generateNewContents strings cb).2
          = ((renderList strings).filter (fun pc => cb pc.1 ≠ pc.2)).map
              (fun pc => (pc.1, cb pc.1))) ∧
    (∀ (cb : Str → Str) (aliases : List Str) (bd : Str → Str → Str × Str)
        (r : MultipleResults), runAll cb aliases bd = Except.ok r →
        r.messages = [str "i18n"] ∧
        ∃ strings2, r.newContents = (generateNewContents strings2 cb).1 ∧
          r.originalContents = (generateNewContents strings2 cb).2) := by
  constructor
  · intro strings cb
    rw [generateNewContents_eq_fold]
    have hnd : ((renderList strings).map Prod.fst).Nodup := by
      rw [renderList_paths]
      decide
    have h := foldl_generateContentEntry cb (renderList strings) ([], []) hnd
      (fun q _ => ⟨rfl, rfl⟩)
    rw [h]
    constructor <;> simp
  · intro cb aliases bd r h
    cases hgt : getTranslatedStrings cb with
    | error e =>
      have hrw : runAll cb aliases bd = Except.error e := by
        unfold runAll
        simp only [hgt]
      rw [hrw] at h
      exact absurd h (by simp)
    | ok s0 =>
      cases hcm : runCheckMissing (tableUpdate s0 (addBadgesEntries aliases bd)) LANGS with
      | error e =>
        have hrw : runAll cb aliases bd = Except.error e := by
          unfold runAll
          simp only [hgt, hcm]
        rw [hrw] at h
        exact absurd h (by simp)
      | ok s2 =>
        have hrw : runAll cb aliases bd
            = Except.ok ⟨(generateNewContents s2 cb).1,
                (generateNewContents s2 cb).2, [str "i18n"]⟩ := by
          unfold runAll
          simp only [hgt, hcm]
        rw [hrw] at h
        have h0 := Except.ok.inj h
        exact ⟨by rw [← h0], s2, by rw [← h0], by rw [← h0]⟩

/-- Witness for claim C9: a drift-free run succeeds, records nothing in
either map, and returns the fixed `i18n` label. -/
theorem claim_C9_witness :
    runAll driftFreeCb [] (fun _ _ => ([], []))
        = Except.ok ⟨[], [], [str "i18n"]⟩ ∧
    (⟨[], [], [str "i18n"]⟩ : MultipleResults).messages = [str "i18n"] := by
  have h : runAll driftFreeCb [] (fun _ _ => ([], []))
      = Except.ok ⟨[], [], [str "i18n"]⟩ := by rfl
  exact ⟨h, (claim_C9.2 driftFreeCb [] (fun _ _ => ([], [])) ⟨[], [], [str "i18n"]⟩ h).1⟩

end I18nLinter
